import Mathlib

/-!
# Verification of the SmartOffice tool-orchestration core and speech queue

Shallow embedding of the tool dispatcher (`ToolKit/tool_manager.py`,
`ToolKit/base_tool.py`), the tool-chain controller
(`MainHub/tool_executor.py`), the tool-call extractor
(`parse_and_execute_from_response`), and the TTS queue manager
(`MainHub/tts_queue.py`), together with proofs and refutations of the
specification's claims about them.
-/

set_option maxRecDepth 10000

/-! ## Python values

A small model of the Python values that flow through the tool layer:
tool parameter values, tool `execute` results, and the dicts the
dispatcher builds.  Logging, printing and timestamps of the source are
side effects invisible to every property below and are omitted. -/

inductive PyVal where
  | str (s : String)
  | bool (b : Bool)
  | int (n : Int)
  | dict (fields : List (String × PyVal))
  | pylist (xs : List PyVal)
  | none

mutual

/-- Model of Python's `str()` as used when a value is spliced into an
f-string.  Only the `.str` case is ever relevant to a proved property:
the rendered text flows solely into prompt/message contents, which no
theorem below inspects. -/
def pyStr : PyVal → String
  | PyVal.str s => s
  | PyVal.bool b => if b then "True" else "False"
  | PyVal.int n => toString n
  | PyVal.none => "None"
  | PyVal.dict fs => "\x7b" ++ pyStrFields fs ++ "\x7d"
  | PyVal.pylist xs => "[" ++ pyStrElems xs ++ "]"

def pyStrFields : List (String × PyVal) → String
  | [] => ""
  | (k, v) :: rest =>
      "\x27" ++ k ++ "\x27: " ++ pyStr v ++ (if rest.isEmpty then "" else ", ") ++ pyStrFields rest

def pyStrElems : List PyVal → String
  | [] => ""
  | v :: rest => pyStr v ++ (if rest.isEmpty then "" else ", ") ++ pyStrElems rest

end

/-- Keyword arguments passed to a tool: the `parameters` mapping. -/
abbrev Params := List (String × PyVal)

/-- A registered tool, as the dispatcher sees it: `self.tools[name]`
holds an object exposing `get_name`, `tool_type`, its parameter schema
(of which only the `required` list is consulted by
`validate_parameters`), and `execute`.  A Python `execute` body either
returns a dict/value or raises; `Except String PyVal` models exactly
that. -/
structure Tool where
  name : String
  tool_type : String
  required : List String
  execute : Params → Except String PyVal

/-- The dict returned by `ToolManager.execute_tool`.  The source builds
three shapes: `{success: False, error}` (unknown tool),
`{success: True, tool, tool_type, result}`, and
`{success: False, tool, tool_type, error}` (validation error or
exception); `Option` fields model the keys that are absent in some
shapes. -/
structure ToolResultDict where
  success : Bool
  tool : Option String
  tool_type : Option String
  result : Option PyVal
  error : Option String

/-- Model of `BaseTool.validate_parameters`: it walks the `required`
list in order and raises `ValueError("Missing required parameter: p")`
at the first `p` not among the keyword arguments; here the first missing
parameter (if any) is returned. -/
def validate_first_missing (required : List String) (params : Params) : Option String :=
  required.find? (fun p => !(params.any (fun q => q.1 == p)))

/-- Body of the `try:` block of `ToolManager.execute_tool` after the
tool lookup succeeded: validation (whose `ValueError` the enclosing
`except` turns into a failure dict), then `tool.execute(**parameters)`
(whose exceptions the same `except` catches). -/
def run_tool (tool : Tool) (tool_name : String) (parameters : Params) : ToolResultDict :=
  match validate_first_missing tool.required parameters with
  | some p =>
      { success := false, tool := some tool_name, tool_type := some tool.tool_type,
        result := Option.none, error := some ("Missing required parameter: " ++ p) }
  | Option.none =>
      match tool.execute parameters with
      | Except.ok result =>
          { success := true, tool := some tool_name, tool_type := some tool.tool_type,
            result := some result, error := Option.none }
      | Except.error e =>
          { success := false, tool := some tool_name, tool_type := some tool.tool_type,
            result := Option.none, error := some e }

/-- Model of `ToolManager.execute_tool`: the registry `self.tools` is an
association of names to tools; an unknown name yields the not-found
dict, otherwise the guarded body runs.  The audit-log writes of the
source are side effects with no influence on the returned dict. -/
def execute_tool (tools : List Tool) (tool_name : String) (parameters : Params) : ToolResultDict :=
  match tools.find? (fun t => t.name == tool_name) with
  | Option.none =>
      { success := false, tool := Option.none, tool_type := Option.none,
        result := Option.none, error := some ("Tool \x27" ++ tool_name ++ "\x27 not found") }
  | some tool => run_tool tool tool_name parameters

/-! ## Chain controller (`MainHub/tool_executor.py`)

The controller's collaborators are injected exactly as in the Python
constructor: `tool_manager.parse_and_execute_from_response` becomes the
function `parse`, and `model_caller.call_model` (always invoked through
`_call_model`, which only wraps the accumulated messages with the system
prompt) becomes `model`, indexed by how many model calls the current
chain has made, since the collaborator is external and may answer
differently on each call. -/

/-- One entry of the `messages` list. -/
structure Msg where
  role : String
  content : String

/-- Shape of a `model_caller.call_model` result, of which
`_handle_retrieval_tool` / `_handle_action_tool` read exactly the
`success` flag and the `response` text. -/
structure ModelResult where
  success : Bool
  response : String

/-- The `ToolExecutor` instance with its injected collaborators. -/
structure ToolExecutor where
  max_iterations : Nat
  parse : String → Option ToolResultDict
  model : Nat → ModelResult

/-- Bookkeeping threaded through one chain: the growing `messages`
list of the source, plus two ghost counters (`calls` = model
re-invocations performed, `dispatches` = tool calls dispatched, i.e.
occasions on which `parse_and_execute_from_response` found and executed
a call) and the `tool_results` list the source accumulates. -/
structure ChainSt where
  messages : List Msg
  calls : Nat
  dispatches : Nat
  tool_results : List ToolResultDict

/-- Return value of a tool handler: the Python methods return either a
tuple `(final_response, next_tool_result)` — only when a further tool
call was found — or a plain string. -/
inductive HandlerOut where
  | chain (response : String) (next_tool : ToolResultDict)
  | done (text : String)

/-- The `retrieval_context` string `_handle_retrieval_tool` builds.
The success branch reads `tool_result['tool']` (which would raise on a
missing key, so the default is irrelevant there) and
`tool_result.get('result', {})`; the failure branch uses
`tool_result.get('tool')` / `.get('error')`, whose `None` prints as
`"None"` in the f-string. -/
def retrieval_context (tool_result : ToolResultDict) : String :=
  if tool_result.success then
    "Tool \x27" ++ tool_result.tool.getD "" ++ "\x27 retrieved:\n" ++
      pyStr (tool_result.result.getD (PyVal.dict [])) ++ "\n\n" ++
      "CRITICAL: You MUST either:\n" ++
      "1. If you have ALL info: Give ULTRA-CONCISE answer (1-2 sentences MAX)\n" ++
      "2. If you need MORE info: Output ONLY JSON tool call\n"
  else
    "Tool \x27" ++ tool_result.tool.getD "None" ++ "\x27 failed: " ++
      tool_result.error.getD "None" ++ "\n" ++
      "MUST try different tool. OUTPUT ONLY JSON!"

/-- The `feedback` string `_handle_action_tool` builds (both branches
index `tool_result['tool']` directly; `.get('error')`'s `None` prints
as `"None"`). -/
def action_feedback (tool_result : ToolResultDict) : String :=
  if tool_result.success then
    "Action \x27" ++ tool_result.tool.getD "" ++ "\x27 completed."
  else
    "Action \x27" ++ tool_result.tool.getD "" ++ "\x27 failed: " ++
      tool_result.error.getD "None"

/-- Model of `ToolExecutor._handle_retrieval_tool`. -/
def handle_retrieval_tool (ex : ToolExecutor) (tool_result : ToolResultDict)
    (ai_response : String) (st : ChainSt) : HandlerOut × ChainSt :=
  let follow_up := ex.model st.calls
  let st1 : ChainSt :=
    { st with
      messages := st.messages ++
        [⟨"assistant", ai_response⟩, ⟨"system", retrieval_context tool_result⟩],
      calls := st.calls + 1 }
  if follow_up.success then
    match ex.parse follow_up.response with
    | some next_tool =>
        (HandlerOut.chain follow_up.response next_tool,
          { st1 with dispatches := st1.dispatches + 1 })
    | Option.none => (HandlerOut.done follow_up.response, st1)
  else
    (HandlerOut.done "I had trouble processing the information.", st1)

/-- Model of `ToolExecutor._handle_action_tool`. -/
def handle_action_tool (ex : ToolExecutor) (tool_result : ToolResultDict)
    (ai_response : String) (st : ChainSt) : HandlerOut × ChainSt :=
  let follow_up := ex.model st.calls
  let st1 : ChainSt :=
    { st with
      messages := st.messages ++
        [⟨"assistant", ai_response⟩,
         ⟨"system", action_feedback tool_result ++
           "\nProvide ULTRA-CONCISE confirmation (1 sentence) or OUTPUT JSON for next tool."⟩],
      calls := st.calls + 1 }
  if follow_up.success then
    match ex.parse follow_up.response with
    | some next_tool =>
        (HandlerOut.chain follow_up.response next_tool,
          { st1 with dispatches := st1.dispatches + 1 })
    | Option.none => (HandlerOut.done follow_up.response, st1)
  else
    (HandlerOut.done (action_feedback tool_result), st1)

/-- How the `while` loop of `_execute_tool_chain` is left: `ret` models
the `return` statement inside the loop (the `set_reminder`
short-circuit, which skips the post-loop cap note), `fell` models
falling out of the loop — via `break` or via the loop condition — with
the final local state. -/
inductive LoopExit where
  | ret (text : String) (st : ChainSt)
  | fell (final_response : String) (iteration : Nat) (st : ChainSt)

/-- The `message` the `set_reminder` short-circuit returns:
`result.get('message', 'Timer set')` when the payload is a dict,
`str(result)` otherwise. -/
def reminder_message (result : PyVal) : String :=
  match result with
  | PyVal.dict fs =>
      match fs.find? (fun p => p.1 == "message") with
      | some kv => pyStr kv.2
      | Option.none => "Timer set"
  | v => pyStr v

/-- The `while tool_result and iteration < self.max_iterations:` loop of
`_execute_tool_chain`.  `fuel` stands for `max_iterations - iteration`,
so the loop guard `iteration < max_iterations` is exactly `fuel > 0`;
callers start at `iteration = 0` with `fuel = max_iterations`. -/
def execute_tool_chain_loop (ex : ToolExecutor) :
    Nat → Option ToolResultDict → String → String → Nat → ChainSt → LoopExit
  | 0, _, _, final_response, iteration, st => LoopExit.fell final_response iteration st
  | _ + 1, Option.none, _, final_response, iteration, st =>
      LoopExit.fell final_response iteration st
  | fuel + 1, some tool_result, ai_response, final_response, iteration, st =>
      let iteration1 := iteration + 1
      let st := { st with tool_results := st.tool_results ++ [tool_result] }
      if tool_result.tool_type = some "retrieval" then
        match handle_retrieval_tool ex tool_result ai_response st with
        | (HandlerOut.chain response next_tool, st') =>
            execute_tool_chain_loop ex fuel (some next_tool) response response iteration1 st'
        | (HandlerOut.done text, st') => LoopExit.fell text iteration1 st'
      else if tool_result.tool_type = some "action" then
        if tool_result.tool = some "set_reminder" ∧ tool_result.success = true then
          LoopExit.ret (reminder_message (tool_result.result.getD (PyVal.dict []))) st
        else
          match handle_action_tool ex tool_result ai_response st with
          | (HandlerOut.chain response next_tool, st') =>
              execute_tool_chain_loop ex fuel (some next_tool) response response iteration1 st'
          | (HandlerOut.done text, st') => LoopExit.fell text iteration1 st'
      else
        LoopExit.fell final_response iteration1 st

/-- Model of `ToolExecutor._execute_tool_chain`.  The ghost `dispatches`
counter starts at 1 because the initial tool result handed over by
`process_tools` was itself produced by a dispatch.  The returned pair is
the final response text together with the final bookkeeping state. -/
def execute_tool_chain (ex : ToolExecutor) (initial_tool_result : ToolResultDict)
    (initial_ai_response user_prompt : String) (history : List Msg) : String × ChainSt :=
  let st0 : ChainSt :=
    { messages := history ++ [⟨"user", user_prompt⟩],
      calls := 0, dispatches := 1, tool_results := [] }
  match execute_tool_chain_loop ex ex.max_iterations (some initial_tool_result)
      initial_ai_response initial_ai_response 0 st0 with
  | LoopExit.ret text st => (text, st)
  | LoopExit.fell final_response iteration st =>
      if ex.max_iterations ≤ iteration then
        (final_response ++ "\n[Maximum tool calls reached]", st)
      else
        (final_response, st)

/-- Model of `ToolExecutor.process_tools`. -/
def process_tools (ex : ToolExecutor) (ai_response user_prompt : String)
    (history : List Msg) : String × ChainSt :=
  match ex.parse ai_response with
  | Option.none =>
      (ai_response, { messages := [], calls := 0, dispatches := 0, tool_results := [] })
  | some tool_result =>
      execute_tool_chain ex tool_result ai_response user_prompt history

/-- A dispatched tool result on which the chain loop neither
short-circuits nor breaks: its kind branch re-invokes the model and, on
a tool-call-bearing answer, continues the loop. -/
def continuing (tr : ToolResultDict) : Prop :=
  tr.tool_type = some "retrieval" ∨
    (tr.tool_type = some "action" ∧
      ¬(tr.tool = some "set_reminder" ∧ tr.success = true))

/-! ## Speech queue (`MainHub/tts_queue.py`)

The queue manager's mutable state — `task_states` (guarded by
`task_states_lock`), the FIFO `queue`, and `current_task` — plus the
single worker thread's control position form the state of a labelled
transition system.  Each step is one lock-protected (or single-variable)
update of the source, so "at every instant" is "in every reachable
state".  The shutdown sentinel and the worker's timeout/`queue.Empty`
branch touch no task state and are omitted. -/

/-- Lifecycle states stored in `task_states`. -/
inductive TaskState where
  | queued
  | playing
  | complete
  | failed
  | error
  | cancelled
  deriving DecidableEq

/-- One queue item; `metadata` and `queued_time` play no role in any
property and are omitted. -/
structure SpeechItem where
  task_id : String
  text : String
  deriving DecidableEq

/-- Control position of the single worker thread inside one pass of
`_process_queue`: idle (blocked in `queue.get`), holding a dequeued item
but not yet past the lock that marks it playing, or speaking (between
marking playing and writing the terminal state). -/
inductive WorkerPhase where
  | idle
  | got (item : SpeechItem)
  | speaking (item : SpeechItem)
  deriving DecidableEq

/-- The shared state of a `TTSQueueManager` plus the worker position. -/
structure QueueState where
  task_states : List (String × TaskState)
  queue : List SpeechItem
  current_task : Option String
  worker : WorkerPhase
  deriving DecidableEq

/-- Lookup in the `task_states` dict (`get_task_state`). -/
def stateOfMap (m : List (String × TaskState)) (id : String) : Option TaskState :=
  (m.find? (fun p => p.1 == id)).map (fun p => p.2)

/-- Dict assignment `task_states[id] = st`: replace if present,
insert otherwise. -/
def setState : List (String × TaskState) → String → TaskState → List (String × TaskState)
  | [], id, st => [(id, st)]
  | (k, v) :: rest, id, st =>
      if k == id then (k, st) :: rest else (k, v) :: setState rest id st

/-- Lookup applied to a whole queue state. -/
def stateOf (s : QueueState) (id : String) : Option TaskState :=
  stateOfMap s.task_states id

/-- Outcome of one `self.tts.speak(text)` call: a returned boolean or a
raised exception. -/
inductive SpeakOutcome where
  | ok (b : Bool)
  | exn (msg : String)

/-- The terminal state `_process_queue` writes for each outcome:
`True → complete`, `False → failed`, exception caught → `error`. -/
def speakResult : SpeakOutcome → TaskState
  | SpeakOutcome.ok true => TaskState.complete
  | SpeakOutcome.ok false => TaskState.failed
  | SpeakOutcome.exn _ => TaskState.error

/-- The labelled steps of the queue manager.

* `add`: `add_to_queue` — record `queued`, append the item; `uuid4`
  freshness is the hypothesis that the id is not yet tracked (every
  caller in the repository lets `add_to_queue` generate the id).
* `dequeue`: the worker's `queue.get` returning a real item.
* `mark_playing`: the locked block setting `playing` and
  `current_task`.
* `finish`: the locked block after `speak` (or its `except` handler)
  writing the terminal state and clearing `current_task`.
* `cancel_one`: one pass of the `clear_queue` drain loop —
  `get_nowait` an item and mark it cancelled if it is tracked. -/
inductive QStep : QueueState → QueueState → Prop where
  | add (s : QueueState) (item : SpeechItem)
      (hfresh : stateOf s item.task_id = Option.none) :
      QStep s { s with
        task_states := setState s.task_states item.task_id TaskState.queued,
        queue := s.queue ++ [item] }
  | dequeue (s : QueueState) (item : SpeechItem) (rest : List SpeechItem)
      (hw : s.worker = WorkerPhase.idle) (hq : s.queue = item :: rest) :
      QStep s { s with queue := rest, worker := WorkerPhase.got item }
  | mark_playing (s : QueueState) (item : SpeechItem)
      (hw : s.worker = WorkerPhase.got item) :
      QStep s { s with
        task_states := setState s.task_states item.task_id TaskState.playing,
        current_task := some item.task_id,
        worker := WorkerPhase.speaking item }
  | finish (s : QueueState) (item : SpeechItem) (out : SpeakOutcome)
      (hw : s.worker = WorkerPhase.speaking item) :
      QStep s { s with
        task_states := setState s.task_states item.task_id (speakResult out),
        current_task := Option.none,
        worker := WorkerPhase.idle }
  | cancel_one (s : QueueState) (item : SpeechItem) (rest : List SpeechItem)
      (hq : s.queue = item :: rest) :
      QStep s { s with
        queue := rest,
        task_states :=
          if (stateOf s item.task_id).isSome then
            setState s.task_states item.task_id TaskState.cancelled
          else s.task_states }

/-- The freshly constructed manager. -/
def initQueueState : QueueState :=
  { task_states := [], queue := [], current_task := Option.none, worker := WorkerPhase.idle }

/-- States the queue manager can actually be in. -/
inductive QReach : QueueState → Prop where
  | init : QReach initQueueState
  | step {s s' : QueueState} : QReach s → QStep s s' → QReach s'

/-- Every item still in the FIFO is tracked as queued. -/
def queuedInQueue (s : QueueState) : Prop :=
  ∀ item ∈ s.queue, stateOf s item.task_id = some TaskState.queued

/-- No task id occurs twice in the FIFO. -/
def queueIdsNodup (s : QueueState) : Prop :=
  (s.queue.map (fun i => i.task_id)).Nodup

/-- What each worker position implies about the shared state. -/
def workerInv (s : QueueState) : Prop :=
  (s.worker = WorkerPhase.idle →
    (∀ id, stateOf s id ≠ some TaskState.playing) ∧ s.current_task = Option.none) ∧
  (∀ item, s.worker = WorkerPhase.got item →
    stateOf s item.task_id = some TaskState.queued ∧
      (∀ q ∈ s.queue, q.task_id ≠ item.task_id) ∧
      (∀ id, stateOf s id ≠ some TaskState.playing) ∧ s.current_task = Option.none) ∧
  (∀ item, s.worker = WorkerPhase.speaking item →
    stateOf s item.task_id = some TaskState.playing ∧
      (∀ q ∈ s.queue, q.task_id ≠ item.task_id) ∧
      s.current_task = some item.task_id ∧
      (∀ id, stateOf s id = some TaskState.playing → id = item.task_id))

/-- The inductive invariant of the queue manager. -/
def QInv (s : QueueState) : Prop :=
  queuedInQueue s ∧ queueIdsNodup s ∧ workerInv s

/-- The legal lifecycle moves of one task's observable state:
creation, `Queued→Playing→{Complete|Failed|Error}`, `Queued→Cancelled`. -/
def allowedTransition : Option TaskState → Option TaskState → Prop
  | Option.none, some TaskState.queued => True
  | some TaskState.queued, some TaskState.playing => True
  | some TaskState.playing, some TaskState.complete => True
  | some TaskState.playing, some TaskState.failed => True
  | some TaskState.playing, some TaskState.error => True
  | some TaskState.queued, some TaskState.cancelled => True
  | _, _ => False

/-- The `while not self.queue.empty():` drain loop of `clear_queue`,
acting on the `task_states` dict: each drained item is marked cancelled
if it is tracked. -/
def clear_queue_drain : List SpeechItem → List (String × TaskState) → List (String × TaskState)
  | [], m => m
  | item :: rest, m =>
      clear_queue_drain rest
        (if (stateOfMap m item.task_id).isSome then
          setState m item.task_id TaskState.cancelled
        else m)

/-- Model of `clear_queue`: drain the whole FIFO, marking each drained
item cancelled; `current_task` and the worker are untouched. -/
def clear_queue (s : QueueState) : QueueState :=
  { s with queue := [], task_states := clear_queue_drain s.queue s.task_states }

/-- One pass of the worker loop body of `_process_queue` on a dequeued
item, followed by the rest of the loop: mark playing (with
`current_task`), call `speak`, write the terminal state for the
outcome, clear `current_task`, continue with the next item.  `speak`
gives the outcome of the external synthesis collaborator on each
text. -/
def process_queue_run (speak : String → SpeakOutcome) :
    List SpeechItem → QueueState → QueueState
  | [], s => s
  | item :: rest, s =>
      let s1 : QueueState :=
        { s with
          task_states := setState s.task_states item.task_id TaskState.playing,
          current_task := some item.task_id }
      let s2 : QueueState :=
        { s1 with
          task_states := setState s1.task_states item.task_id (speakResult (speak item.text)),
          current_task := Option.none }
      process_queue_run speak rest s2

/-! ## Tool-call extractor (`ToolManager.parse_and_execute_from_response`)

The parsing step of `parse_and_execute_from_response` is
`re.search(r'\x7b.*"tool".*\x7d', response, re.DOTALL)` followed by
`json.loads` on the matched text and the reads
`tool_call.get('tool')` / `tool_call.get('parameters', {})`; any
`JSONDecodeError` makes the function return `None`.

The regex is modelled by its leftmost-greedy semantics: a match starts
at the first position whose character is `{` and after which some
literal `"tool"` occurrence is followed (at distance at least 6 from
its start, i.e. past the literal) by some `}`; with both `.*` greedy
and `re.DOTALL`, the match then extends to the last `}` of the whole
text.

`json.loads` is modelled on the fragment the extractor contract needs:
objects with string keys whose values are escape-free strings or such
objects again, with optional whitespace, and with the whole matched
text consumed ("Extra data" otherwise).  Inputs outside this fragment
(escapes, numbers, arrays, non-string `tool` values) are out of the
modelled domain and no claim below depends on them. -/

/-- The literal `"tool"` the regex requires inside the braces. -/
def toolLit : List Char := ['"', 't', 'o', 'o', 'l', '"']

/-- Does some occurrence of `"tool"` in `s` have a `}` after the
literal?  (The occurrence may start at the head of `s`.) -/
def toolThenBrace : List Char → Bool
  | [] => false
  | c :: rest =>
      (toolLit.isPrefixOf (c :: rest) && ((c :: rest).drop 6).contains '\x7d') ||
        toolThenBrace rest

/-- Can a regex match start at the head of `s`? -/
def matchFromHere (s : List Char) : Bool :=
  match s with
  | [] => false
  | c :: rest => c == '\x7b' && toolThenBrace rest

/-- The prefix of `s` ending at the last `}` of `s` — the greedy match
end. -/
def takeToLastClose (s : List Char) : List Char :=
  ((s.reverse.dropWhile (fun c => c != '\x7d')).reverse)

/-- Leftmost-greedy model of the `re.search` call: scan for the first
position where a match can start and extend it to the last `}` of the
remaining text (which equals the last `}` of the whole text, since every
match end lies at or after the match start). -/
def regexSearchTool : List Char → Option (List Char)
  | [] => Option.none
  | c :: rest =>
      if matchFromHere (c :: rest) then some (takeToLastClose (c :: rest))
      else regexSearchTool rest

/-- JSON values of the modelled fragment. -/
inductive JVal where
  | str (s : String)
  | obj (fields : List (String × JVal))

/-- JSON insignificant whitespace. -/
def skipWs : List Char → List Char
  | [] => []
  | c :: rest =>
      if c = ' ' ∨ c = '\n' ∨ c = '\t' ∨ c = '\r' then skipWs rest else c :: rest

/-- Characters of a string token after its opening quote, up to the
closing quote; escape sequences are outside the modelled fragment. -/
def parseStringBody : List Char → Option (List Char × List Char)
  | [] => Option.none
  | c :: rest =>
      if c = '"' then some ([], rest)
      else if c = '\\' then Option.none
      else
        match parseStringBody rest with
        | some (body, rem) => some (c :: body, rem)
        | Option.none => Option.none

/-- A string token, with leading whitespace allowed. -/
def parseJString (s : List Char) : Option (String × List Char) :=
  match skipWs s with
  | [] => Option.none
  | c :: rest =>
      if c = '"' then
        match parseStringBody rest with
        | some (body, rem) => some (String.mk body, rem)
        | Option.none => Option.none
      else Option.none

mutual

/-- A JSON value of the fragment: a string or an object.  `fuel`
strictly decreases on every recursive call; any fuel exceeding the
input length is enough. -/
def parseJVal : Nat → List Char → Option (JVal × List Char)
  | 0, _ => Option.none
  | fuel + 1, s =>
      match skipWs s with
      | [] => Option.none
      | c :: rest =>
          if c = '"' then
            match parseStringBody rest with
            | some (body, rem) => some (JVal.str (String.mk body), rem)
            | Option.none => Option.none
          else if c = '\x7b' then
            match parseJObjBody fuel rest with
            | some (fields, rem) => some (JVal.obj fields, rem)
            | Option.none => Option.none
          else Option.none

/-- After an object's opening brace: an immediate `}` or a field
list. -/
def parseJObjBody : Nat → List Char → Option (List (String × JVal) × List Char)
  | 0, _ => Option.none
  | fuel + 1, s =>
      match skipWs s with
      | [] => Option.none
      | c :: rest =>
          if c = '\x7d' then some ([], rest)
          else parseJFieldList fuel (c :: rest)

/-- One or more `"key": value` fields separated by commas and closed by
`}`. -/
def parseJFieldList : Nat → List Char → Option (List (String × JVal) × List Char)
  | 0, _ => Option.none
  | fuel + 1, s =>
      match parseJString s with
      | Option.none => Option.none
      | some (key, rest1) =>
          match skipWs rest1 with
          | [] => Option.none
          | c :: rest2 =>
              if c = ':' then
                match parseJVal fuel rest2 with
                | Option.none => Option.none
                | some (v, rest3) =>
                    match skipWs rest3 with
                    | [] => Option.none
                    | c2 :: rest4 =>
                        if c2 = ',' then
                          match parseJFieldList fuel rest4 with
                          | some (fields, rest5) => some ((key, v) :: fields, rest5)
                          | Option.none => Option.none
                        else if c2 = '\x7d' then some ([(key, v)], rest4)
                        else Option.none
              else Option.none

end

/-- Model of `json.loads` on the matched text: parse one value and
require that nothing but whitespace remains. -/
def jsonLoads (s : List Char) : Option JVal :=
  match parseJVal (s.length + 1) s with
  | some (v, rem) => if skipWs rem = [] then some v else Option.none
  | Option.none => Option.none

/-- The parsing step of `parse_and_execute_from_response`: regex search,
`json.loads` on the match, then `tool_call.get('tool')` (which must be
a non-empty — truthy — string) and `tool_call.get('parameters', {})`.
Returns the extracted tool name and parameters value that would be
handed to `execute_tool`. -/
def parse_tool_call (response : String) : Option (String × JVal) :=
  match regexSearchTool response.toList with
  | Option.none => Option.none
  | some m =>
      match jsonLoads m with
      | some (JVal.obj fields) =>
          match fields.find? (fun p => p.1 == "tool") with
          | some (_, JVal.str tool_name) =>
              if tool_name = "" then Option.none
              else
                some (tool_name,
                  match fields.find? (fun p => p.1 == "parameters") with
                  | some kv => kv.2
                  | Option.none => JVal.obj [])
          | _ => Option.none
      | _ => Option.none

/-- Canonical serialization of a tool call whose parameter values are
strings, in `json.dumps` default format — the "well-formed
`{"tool": ..., "parameters": {...}}` object" of the claim. -/
def paramsJson : List (String × String) → String
  | [] => ""
  | [(k, v)] => "\"" ++ k ++ "\": \"" ++ v ++ "\""
  | (k, v) :: rest => "\"" ++ k ++ "\": \"" ++ v ++ "\", " ++ paramsJson rest

/-- The serialized `{"tool": tool, "parameters": {…}}` object. -/
def toolCallJson (tool : String) (params : List (String × String)) : String :=
  "\x7b\"tool\": \"" ++ tool ++ "\", \"parameters\": \x7b" ++ paramsJson params ++ "\x7d\x7d"

/-- A piece of text is plain when it contains no quote, backslash or
brace — the well-formedness side condition for names, keys and values
of the canonical object. -/
def plainChars (s : String) : Prop :=
  ∀ c ∈ s.toList, c ≠ '"' ∧ c ≠ '\\' ∧ c ≠ '\x7b' ∧ c ≠ '\x7d'

/-- The `JVal` denoted by a serialized parameter list. -/
def paramsJVal (params : List (String × String)) : List (String × JVal) :=
  params.map (fun p => (p.1, JVal.str p.2))

/-! ## Concrete instances used by counterexamples and witnesses -/

/-- A successful retrieval-kind dispatcher result for a tool of the
given name. -/
def retrievalResult (name : String) : ToolResultDict :=
  { success := true, tool := some name, tool_type := some "retrieval",
    result := some (PyVal.dict []), error := Option.none }

/-- An executor whose model always succeeds and whose every output
contains a (retrieval) tool call on the given tool name — the premise
of the cap claims, with the source's default `max_iterations = 5`. -/
def allCallsEnv (name : String) : ToolExecutor :=
  { max_iterations := 5,
    parse := fun _ => some (retrievalResult name),
    model := fun _ => { success := true, response := "next" } }

/-- A successful action-kind dispatcher result for `post_note`. -/
def postNoteResult : ToolResultDict :=
  { success := true, tool := some "post_note", tool_type := some "action",
    result := some (PyVal.dict []), error := Option.none }

/-- An executor whose first output dispatches a successful `post_note`
action and whose model collaborator then fails. -/
def modelFailEnv : ToolExecutor :=
  { max_iterations := 5,
    parse := fun _ => some postNoteResult,
    model := fun _ => { success := false, response := "" } }

/-- A successful `set_reminder` dispatcher result carrying a
human-readable `message`, as `SetReminderTool.execute` produces. -/
def setReminderResult : ToolResultDict :=
  { success := true, tool := some "set_reminder", tool_type := some "action",
    result := some (PyVal.dict [("message", PyVal.str "Timer set for 5 minutes")]),
    error := Option.none }

/-- An executor whose first output dispatches the successful
`set_reminder` above. -/
def setReminderEnv : ToolExecutor :=
  { max_iterations := 5,
    parse := fun _ => some setReminderResult,
    model := fun _ => { success := true, response := "next" } }

/-- A registered `get_weather` whose body returns (without raising) the
failure dict `GetWeatherTool.execute` builds on a timeout. -/
def get_weather_failure_tool : Tool :=
  { name := "get_weather", tool_type := "retrieval", required := ["location"],
    execute := fun _ => Except.ok (PyVal.dict
      [("success", PyVal.bool false),
       ("error", PyVal.str "Weather API request timed out")]) }

def qsA : QueueState :=
  { task_states := [("a", TaskState.queued)], queue := [⟨"a", "ping"⟩],
    current_task := Option.none, worker := WorkerPhase.idle }

def qsB : QueueState :=
  { task_states := [("a", TaskState.queued)], queue := [],
    current_task := Option.none, worker := WorkerPhase.got ⟨"a", "ping"⟩ }

def qsScenario : QueueState :=
  { task_states := [("a", TaskState.playing), ("b", TaskState.queued),
      ("c", TaskState.queued), ("d", TaskState.queued)],
    queue := [⟨"b", "t2"⟩, ⟨"c", "t3"⟩, ⟨"d", "t4"⟩],
    current_task := some "a",
    worker := WorkerPhase.speaking ⟨"a", "t1"⟩ }

def speakScript : String → SpeakOutcome :=
  fun t =>
    if t = "x" then SpeakOutcome.ok true
    else if t = "y" then SpeakOutcome.ok false
    else SpeakOutcome.exn "boom"

def speakItems : List SpeechItem := [⟨"a", "x"⟩, ⟨"b", "y"⟩, ⟨"c", "z"⟩]

/-- Specification helper: the final response text of a chain that runs
`fuel` further loop iterations starting at model-call index `c` when
every model output carries a tool call — the last model response, or
`fin` if the loop is not entered. -/
def capFinal (ex : ToolExecutor) (c : Nat) (fin : String) : Nat → String
  | 0 => fin
  | f + 1 => (ex.model (c + f)).response

/-! ## Theorems -/

theorem validate_first_missing_of_missing (required : List String) (params : Params)
    (hmiss : ∃ p ∈ required, ∀ q ∈ params, q.1 ≠ p) :
    ∃ p, validate_first_missing required params = some p ∧
      p ∈ required ∧ ∀ q ∈ params, q.1 ≠ p := by
  obtain ⟨p, hp, hnone⟩ := hmiss
  have hpred : (!(params.any (fun q => q.1 == p))) = true := by
    simp only [Bool.not_eq_true', List.any_eq_false]
    intro q hq
    simpa using hnone q hq
  have hsome : (required.find? (fun p => !(params.any (fun q => q.1 == p)))).isSome := by
    rw [List.find?_isSome]
    exact ⟨p, hp, hpred⟩
  obtain ⟨p', hp'⟩ := Option.isSome_iff_exists.mp hsome
  refine ⟨p', hp', List.mem_of_find?_eq_some hp', ?_⟩
  have := List.find?_some hp'
  simp only [Bool.not_eq_true', List.any_eq_false] at this
  intro q hq
  simpa using this q hq

/-- C6: a known tool invoked with a parameter mapping missing at least
one required parameter makes the dispatcher return `success=false` with
an error naming the (first) missing parameter; the tool's `execute` body
is never consulted (the result is the same for every `execute`
function), and the dispatcher returns a value rather than raising —
`execute_tool` is total by construction, mirroring the `except` clause
that swallows the `ValueError`. -/
theorem dispatcher_missing_required_param
    (tools : List Tool) (tool : Tool) (tool_name : String) (params : Params)
    (hfind : tools.find? (fun t => t.name == tool_name) = some tool)
    (hmiss : ∃ p ∈ tool.required, ∀ q ∈ params, q.1 ≠ p) :
    ∃ p, p ∈ tool.required ∧ (∀ q ∈ params, q.1 ≠ p) ∧
      (execute_tool tools tool_name params).success = false ∧
      (execute_tool tools tool_name params).error =
        some ("Missing required parameter: " ++ p) ∧
      ∀ f, run_tool { tool with execute := f } tool_name params =
        run_tool tool tool_name params := by
  obtain ⟨p, hval, hp, hnone⟩ := validate_first_missing_of_missing tool.required params hmiss
  refine ⟨p, hp, hnone, ?_, ?_, ?_⟩
  · simp [execute_tool, hfind, run_tool, hval]
  · simp [execute_tool, hfind, run_tool, hval]
  · intro f
    simp [run_tool, validate_first_missing] at hval ⊢
    rw [hval]

theorem chain_short_circuit (ex : ToolExecutor) (tr : ToolResultDict)
    (ai u : String) (hist : List Msg)
    (hmax : 1 ≤ ex.max_iterations)
    (hp : ex.parse ai = some tr)
    (htype : tr.tool_type = some "action")
    (hname : tr.tool = some "set_reminder")
    (hsucc : tr.success = true) :
    process_tools ex ai u hist =
      (reminder_message (tr.result.getD (PyVal.dict [])),
        { messages := hist ++ [⟨"user", u⟩], calls := 0, dispatches := 1,
          tool_results := [tr] }) := by
  obtain ⟨k, hk⟩ : ∃ k, ex.max_iterations = k + 1 :=
    ⟨ex.max_iterations - 1, by omega⟩
  simp only [process_tools, hp, execute_tool_chain, hk, execute_tool_chain_loop,
    htype, hname, hsucc]
  simp

/-- C5: when a known tool's `execute` returns a dict without raising,
the dispatcher reports `success=True` at its own level no matter what
the dict says — a tool-signalled failure (e.g. a weather API error dict
with `success: False`) is visible only nested inside `result` — and a
consumer branching on the outer flag, such as the `set_reminder`
short-circuit, treats it as a success (it returns immediately with zero
model calls). -/
theorem dispatcher_success_wraps_tool_reported_failure
    (tools : List Tool) (tool : Tool) (tool_name : String) (params : Params) (r : PyVal)
    (hfind : tools.find? (fun t => t.name == tool_name) = some tool)
    (hval : validate_first_missing tool.required params = Option.none)
    (hexec : tool.execute params = Except.ok r) :
    (execute_tool tools tool_name params).success = true ∧
    (execute_tool tools tool_name params).result = some r ∧
    (execute_tool tools tool_name params).error = Option.none ∧
    ∀ (ex : ToolExecutor) (ai u : String) (hist : List Msg),
      1 ≤ ex.max_iterations →
      ex.parse ai = some (execute_tool tools tool_name params) →
      tool_name = "set_reminder" → tool.tool_type = "action" →
      (process_tools ex ai u hist).1 = reminder_message r ∧
      (process_tools ex ai u hist).2.calls = 0 := by
  have hres : execute_tool tools tool_name params =
      { success := true, tool := some tool_name, tool_type := some tool.tool_type,
        result := some r, error := Option.none } := by
    simp [execute_tool, hfind, run_tool, hval, hexec]
  refine ⟨by rw [hres], by rw [hres], by rw [hres], ?_⟩
  intro ex ai u hist hmax hp hname htype
  have h := chain_short_circuit ex (execute_tool tools tool_name params) ai u hist hmax hp
    (by rw [hres, htype]) (by rw [hres, hname]) (by rw [hres])
  rw [h, hres]
  exact ⟨rfl, rfl⟩

/-- C4: a dispatched `set_reminder` action whose dispatcher-level result
reports success makes the chain controller return the result's
human-readable `message` as the final text, after exactly the one
dispatch that produced the result and with zero model re-invocations. -/
theorem set_reminder_short_circuit (ex : ToolExecutor) (tr : ToolResultDict)
    (fs : List (String × PyVal)) (m : String) (ai u : String) (hist : List Msg)
    (hmax : 1 ≤ ex.max_iterations)
    (hp : ex.parse ai = some tr)
    (htype : tr.tool_type = some "action")
    (hname : tr.tool = some "set_reminder")
    (hsucc : tr.success = true)
    (hres : tr.result = some (PyVal.dict fs))
    (hmsg : fs.find? (fun p => p.1 == "message") = some ("message", PyVal.str m)) :
    (process_tools ex ai u hist).1 = m ∧
    (process_tools ex ai u hist).2.calls = 0 ∧
    (process_tools ex ai u hist).2.dispatches = 1 := by
  have h := chain_short_circuit ex tr ai u hist hmax hp htype hname hsucc
  rw [h]
  refine ⟨?_, rfl, rfl⟩
  simp [reminder_message, hres, hmsg, pyStr]

theorem capFinal_shift (ex : ToolExecutor) (c : Nat) (fin : String) (f : Nat) :
    capFinal ex (c + 1) ((ex.model c).response) f = capFinal ex c fin (f + 1) := by
  cases f with
  | zero => simp [capFinal]
  | succ g =>
      show (ex.model (c + 1 + g)).response = (ex.model (c + (g + 1))).response
      congr 2
      omega

theorem chain_loop_step_retrieval (ex : ToolExecutor) (f : Nat) (tr nt : ToolResultDict)
    (ai fin : String) (iter : Nat) (st : ChainSt)
    (htype : tr.tool_type = some "retrieval")
    (hmsucc : (ex.model st.calls).success = true)
    (hparse : ex.parse (ex.model st.calls).response = some nt) :
    execute_tool_chain_loop ex (f + 1) (some tr) ai fin iter st =
      execute_tool_chain_loop ex f (some nt) (ex.model st.calls).response
        (ex.model st.calls).response (iter + 1)
        { messages := st.messages ++ [⟨"assistant", ai⟩, ⟨"system", retrieval_context tr⟩],
          calls := st.calls + 1, dispatches := st.dispatches + 1,
          tool_results := st.tool_results ++ [tr] } := by
  simp only [execute_tool_chain_loop, htype, handle_retrieval_tool, hmsucc, if_true, hparse]

theorem chain_loop_step_action (ex : ToolExecutor) (f : Nat) (tr nt : ToolResultDict)
    (ai fin : String) (iter : Nat) (st : ChainSt)
    (htype : tr.tool_type = some "action")
    (hguard : ¬(tr.tool = some "set_reminder" ∧ tr.success = true))
    (hmsucc : (ex.model st.calls).success = true)
    (hparse : ex.parse (ex.model st.calls).response = some nt) :
    execute_tool_chain_loop ex (f + 1) (some tr) ai fin iter st =
      execute_tool_chain_loop ex f (some nt) (ex.model st.calls).response
        (ex.model st.calls).response (iter + 1)
        { messages := st.messages ++
            [⟨"assistant", ai⟩,
             ⟨"system", action_feedback tr ++
               "\nProvide ULTRA-CONCISE confirmation (1 sentence) or OUTPUT JSON for next tool."⟩],
          calls := st.calls + 1, dispatches := st.dispatches + 1,
          tool_results := st.tool_results ++ [tr] } := by
  simp only [execute_tool_chain_loop, htype, handle_action_tool, hmsucc, if_true, hparse]
  rw [if_neg (by simp : ¬((some "action" : Option String) = some "retrieval")), if_neg hguard]

theorem chain_loop_all_tool_calls (ex : ToolExecutor) (t : Nat → ToolResultDict)
    (hm : ∀ k, (ex.model k).success = true)
    (hp : ∀ k, ex.parse (ex.model k).response = some (t k))
    (hc : ∀ k, continuing (t k)) :
    ∀ (fuel : Nat) (tr : ToolResultDict) (ai fin : String) (iter : Nat) (st : ChainSt),
      continuing tr →
      ∃ st' : ChainSt,
        execute_tool_chain_loop ex fuel (some tr) ai fin iter st =
          LoopExit.fell (capFinal ex st.calls fin fuel) (iter + fuel) st' ∧
        st'.calls = st.calls + fuel ∧ st'.dispatches = st.dispatches + fuel := by
  intro fuel
  induction fuel with
  | zero =>
      intro tr ai fin iter st _
      exact ⟨st, rfl, rfl, rfl⟩
  | succ f ih =>
      intro tr ai fin iter st hcont
      rcases hcont with htype | ⟨htype, hguard⟩
      · obtain ⟨st', heq, hcalls, hdisp⟩ :=
          ih (t st.calls) (ex.model st.calls).response (ex.model st.calls).response (iter + 1)
            { messages := st.messages ++ [⟨"assistant", ai⟩, ⟨"system", retrieval_context tr⟩],
              calls := st.calls + 1, dispatches := st.dispatches + 1,
              tool_results := st.tool_results ++ [tr] } (hc st.calls)
        refine ⟨st', ?_, ?_, ?_⟩
        · rw [chain_loop_step_retrieval ex f tr (t st.calls) ai fin iter st htype
            (hm st.calls) (hp st.calls), heq, capFinal_shift ex st.calls fin f]
          congr 1
          omega
        · simp only [] at hcalls
          omega
        · simp only [] at hdisp
          omega
      · obtain ⟨st', heq, hcalls, hdisp⟩ :=
          ih (t st.calls) (ex.model st.calls).response (ex.model st.calls).response (iter + 1)
            { messages := st.messages ++
                [⟨"assistant", ai⟩,
                 ⟨"system", action_feedback tr ++
                   "\nProvide ULTRA-CONCISE confirmation (1 sentence) or OUTPUT JSON for next tool."⟩],
              calls := st.calls + 1, dispatches := st.dispatches + 1,
              tool_results := st.tool_results ++ [tr] } (hc st.calls)
        refine ⟨st', ?_, ?_, ?_⟩
        · rw [chain_loop_step_action ex f tr (t st.calls) ai fin iter st htype hguard
            (hm st.calls) (hp st.calls), heq, capFinal_shift ex st.calls fin f]
          congr 1
          omega
        · simp only [] at hcalls
          omega
        · simp only [] at hdisp
          omega

/-- C1 (amended): when every model output carries a tool call that the
chain keeps following (a retrieval or non-short-circuiting action
dispatch) and every model call succeeds, the controller terminates via
the iteration cap after exactly `max_iterations + 1` dispatched tool
calls — the initial dispatch plus one per loop iteration; the last
dispatched result is left unprocessed — and exactly `max_iterations`
model re-invocations. -/
theorem chain_terminates_with_cap_dispatches (ex : ToolExecutor) (t : Nat → ToolResultDict)
    (tr0 : ToolResultDict) (ai u : String) (hist : List Msg)
    (hm : ∀ k, (ex.model k).success = true)
    (hp : ∀ k, ex.parse (ex.model k).response = some (t k))
    (hc : ∀ k, continuing (t k))
    (h0 : ex.parse ai = some tr0) (hc0 : continuing tr0) :
    (process_tools ex ai u hist).2.dispatches = ex.max_iterations + 1 ∧
    (process_tools ex ai u hist).2.calls = ex.max_iterations := by
  obtain ⟨st', heq, hcalls, hdisp⟩ :=
    chain_loop_all_tool_calls ex t hm hp hc ex.max_iterations tr0 ai ai 0
      { messages := hist ++ [⟨"user", u⟩], calls := 0, dispatches := 1,
        tool_results := [] } hc0
  simp only [process_tools, h0, execute_tool_chain, heq]
  rw [if_pos (by omega)]
  simp only [] at hcalls hdisp
  refine ⟨?_, ?_⟩
  · show st'.dispatches = ex.max_iterations + 1
    omega
  · show st'.calls = ex.max_iterations
    omega

/-- C1 counterexample: with the default `max_iterations = 5` and a model
whose every output contains a (retrieval) tool call, the chain dispatches
6 tool calls, not the 5 the claim states. -/
theorem chain_dispatch_count_exceeds_cap_cex :
    (process_tools (allCallsEnv "get_weather") "go" "u" []).2.dispatches = 6 ∧
    (process_tools (allCallsEnv "get_weather") "go" "u" []).2.dispatches ≠ 5 := by
  have h : (process_tools (allCallsEnv "get_weather") "go" "u" []).2.dispatches = 6 := rfl
  exact ⟨h, fun hh => absurd (h.symm.trans hh) (by decide)⟩

theorem chain_terminates_with_cap_dispatches_witness :
    (process_tools (allCallsEnv "w") "go" "u" []).2.dispatches =
      (allCallsEnv "w").max_iterations + 1 ∧
    (process_tools (allCallsEnv "w") "go" "u" []).2.calls =
      (allCallsEnv "w").max_iterations :=
  chain_terminates_with_cap_dispatches (allCallsEnv "w")
    (fun _ => retrievalResult "w") (retrievalResult "w") "go" "u" []
    (fun _ => rfl) (fun _ => rfl) (fun _ => Or.inl rfl) rfl (Or.inl rfl)

/-- C8 (amended): when the cap is reached with a tool call still
pending, the final text is the last model output with the fixed note
`"[Maximum tool calls reached]"` appended — so truncation is flagged,
but the note does not name the tools that were invoked. -/
theorem cap_note_is_fixed_suffix (ex : ToolExecutor) (t : Nat → ToolResultDict)
    (tr0 : ToolResultDict) (ai u : String) (hist : List Msg)
    (hm : ∀ k, (ex.model k).success = true)
    (hp : ∀ k, ex.parse (ex.model k).response = some (t k))
    (hc : ∀ k, continuing (t k))
    (h0 : ex.parse ai = some tr0) (hc0 : continuing tr0)
    (hmax : 1 ≤ ex.max_iterations) :
    (process_tools ex ai u hist).1 =
      (ex.model (ex.max_iterations - 1)).response ++ "\n[Maximum tool calls reached]" := by
  obtain ⟨st', heq, _, _⟩ :=
    chain_loop_all_tool_calls ex t hm hp hc ex.max_iterations tr0 ai ai 0
      { messages := hist ++ [⟨"user", u⟩], calls := 0, dispatches := 1,
        tool_results := [] } hc0
  obtain ⟨k, hk⟩ : ∃ k, ex.max_iterations = k + 1 := ⟨ex.max_iterations - 1, by omega⟩
  simp only [process_tools, h0, execute_tool_chain, heq]
  rw [if_pos (by omega)]
  rw [hk]
  simp [capFinal]

/-- C8 counterexample: two runs that invoke entirely different tools
(`alpha` five times vs `beta` five times) end in identical final texts,
so the appended note cannot be enumerating which tools were invoked. -/
theorem cap_note_does_not_enumerate_tools_cex :
    (process_tools (allCallsEnv "alpha") "go" "u" []).1 =
      (process_tools (allCallsEnv "beta") "go" "u" []).1 ∧
    (process_tools (allCallsEnv "alpha") "go" "u" []).2.tool_results.map
      (fun r => r.tool) = List.replicate 5 (some "alpha") ∧
    (process_tools (allCallsEnv "beta") "go" "u" []).2.tool_results.map
      (fun r => r.tool) = List.replicate 5 (some "beta") ∧
    (some "alpha" : Option String) ≠ some "beta" :=
  ⟨rfl, rfl, rfl, by decide⟩

theorem cap_note_is_fixed_suffix_witness :
    (process_tools (allCallsEnv "w2") "go" "u" []).1 =
      ((allCallsEnv "w2").model ((allCallsEnv "w2").max_iterations - 1)).response ++
        "\n[Maximum tool calls reached]" :=
  cap_note_is_fixed_suffix (allCallsEnv "w2")
    (fun _ => retrievalResult "w2") (retrievalResult "w2") "go" "u" []
    (fun _ => rfl) (fun _ => rfl) (fun _ => Or.inl rfl) rfl (Or.inl rfl)
    (by decide)

/-- C7 (amended): when the model collaborator reports failure on the
first re-invocation of a chain (with the cap not yet reached), the
controller terminates normally — the embedding is a total function,
mirroring that the source returns a string instead of raising — but the
final text depends on the branch: the retrieval branch returns the
fixed apology string, while the action branch returns the action
feedback string, not the apology. -/
theorem model_failure_terminates_per_branch (ex : ToolExecutor) (tr : ToolResultDict)
    (name ai u : String) (hist : List Msg)
    (hmax : 2 ≤ ex.max_iterations)
    (hp : ex.parse ai = some tr)
    (hm0 : (ex.model 0).success = false)
    (hname : tr.tool = some name) :
    (tr.tool_type = some "retrieval" →
      (process_tools ex ai u hist).1 = "I had trouble processing the information.") ∧
    (tr.tool_type = some "action" →
      ¬(tr.tool = some "set_reminder" ∧ tr.success = true) →
      (process_tools ex ai u hist).1 =
        (if tr.success = true then "Action \x27" ++ name ++ "\x27 completed."
         else "Action \x27" ++ name ++ "\x27 failed: " ++ tr.error.getD "None")) := by
  obtain ⟨k, hk⟩ : ∃ k, ex.max_iterations = k + 2 := ⟨ex.max_iterations - 2, by omega⟩
  constructor
  · intro htype
    simp only [process_tools, hp, execute_tool_chain, hk, execute_tool_chain_loop, htype,
      handle_retrieval_tool, hm0]
    simp
  · intro htype hguard
    simp only [process_tools, hp, execute_tool_chain, hk, execute_tool_chain_loop, htype,
      handle_action_tool, hm0]
    rw [if_neg (by simp : ¬((some "action" : Option String) = some "retrieval")),
      if_neg hguard]
    simp
    simp [action_feedback, hname]

/-- C7 counterexample: a successful `post_note` action dispatch followed
by a failing model call makes the controller return the action feedback
string, not the fixed apology string — the apology is not
branch-independent. -/
theorem model_failure_fixed_apology_cex :
    (process_tools modelFailEnv "go" "u" []).1 = "Action \x27post_note\x27 completed." ∧
    (process_tools modelFailEnv "go" "u" []).1 ≠
      "I had trouble processing the information." := by
  have h : (process_tools modelFailEnv "go" "u" []).1 =
      "Action \x27post_note\x27 completed." := rfl
  exact ⟨h, fun hh => absurd (h.symm.trans hh) (by decide)⟩

theorem model_failure_terminates_per_branch_witness :
    ((postNoteResult.tool_type = some "retrieval") →
      (process_tools modelFailEnv "go" "u" []).1 =
        "I had trouble processing the information.") ∧
    ((postNoteResult.tool_type = some "action") →
      ¬(postNoteResult.tool = some "set_reminder" ∧ postNoteResult.success = true) →
      (process_tools modelFailEnv "go" "u" []).1 =
        (if postNoteResult.success = true then "Action \x27post_note\x27 completed."
         else "Action \x27post_note\x27 failed: " ++ postNoteResult.error.getD "None")) :=
  model_failure_terminates_per_branch modelFailEnv postNoteResult "post_note" "go" "u" []
    (by decide) rfl rfl rfl

theorem set_reminder_short_circuit_witness :
    (process_tools setReminderEnv "go" "u" []).1 = "Timer set for 5 minutes" ∧
    (process_tools setReminderEnv "go" "u" []).2.calls = 0 ∧
    (process_tools setReminderEnv "go" "u" []).2.dispatches = 1 :=
  set_reminder_short_circuit setReminderEnv setReminderResult
    [("message", PyVal.str "Timer set for 5 minutes")] "Timer set for 5 minutes"
    "go" "u" [] (by decide) rfl rfl rfl rfl rfl rfl

theorem dispatcher_success_wraps_tool_reported_failure_witness :
    (execute_tool [get_weather_failure_tool] "get_weather"
      [("location", PyVal.str "Boston")]).success = true ∧
    (execute_tool [get_weather_failure_tool] "get_weather"
      [("location", PyVal.str "Boston")]).result = some (PyVal.dict
        [("success", PyVal.bool false),
         ("error", PyVal.str "Weather API request timed out")]) ∧
    (execute_tool [get_weather_failure_tool] "get_weather"
      [("location", PyVal.str "Boston")]).error = Option.none ∧
    ∀ (ex : ToolExecutor) (ai u : String) (hist : List Msg),
      1 ≤ ex.max_iterations →
      ex.parse ai = some (execute_tool [get_weather_failure_tool] "get_weather"
        [("location", PyVal.str "Boston")]) →
      "get_weather" = "set_reminder" → get_weather_failure_tool.tool_type = "action" →
      (process_tools ex ai u hist).1 = reminder_message (PyVal.dict
        [("success", PyVal.bool false),
         ("error", PyVal.str "Weather API request timed out")]) ∧
      (process_tools ex ai u hist).2.calls = 0 :=
  dispatcher_success_wraps_tool_reported_failure [get_weather_failure_tool]
    get_weather_failure_tool "get_weather" [("location", PyVal.str "Boston")]
    (PyVal.dict [("success", PyVal.bool false),
      ("error", PyVal.str "Weather API request timed out")]) rfl rfl rfl

theorem dispatcher_missing_required_param_witness :
    ∃ p, p ∈ get_weather_failure_tool.required ∧
      (∀ q ∈ ([] : Params), q.1 ≠ p) ∧
      (execute_tool [get_weather_failure_tool] "get_weather" []).success = false ∧
      (execute_tool [get_weather_failure_tool] "get_weather" []).error =
        some ("Missing required parameter: " ++ p) ∧
      ∀ f, run_tool { get_weather_failure_tool with execute := f } "get_weather" [] =
        run_tool get_weather_failure_tool "get_weather" [] :=
  dispatcher_missing_required_param [get_weather_failure_tool] get_weather_failure_tool
    "get_weather" [] rfl
    ⟨"location", by simp [get_weather_failure_tool], fun q hq => absurd hq (List.not_mem_nil q)⟩

theorem stateOfMap_setState_self (m : List (String × TaskState)) (id : String) (st : TaskState) :
    stateOfMap (setState m id st) id = some st := by
  induction m with
  | nil => simp [setState, stateOfMap]
  | cons kv rest ih =>
      obtain ⟨k, v⟩ := kv
      by_cases h : k = id
      · subst h
        simp [setState, stateOfMap]
      · have hb : (k == id) = false := by simp [h]
        simp only [setState, hb, Bool.false_eq_true, if_false, stateOfMap,
          List.find?_cons, hb] at ih ⊢
        exact ih

theorem stateOfMap_setState_other (m : List (String × TaskState)) (id id' : String)
    (st : TaskState) (h : id' ≠ id) :
    stateOfMap (setState m id st) id' = stateOfMap m id' := by
  induction m with
  | nil =>
      have hb : (id == id') = false := by simp [Ne.symm h]
      simp [setState, stateOfMap, hb]
  | cons kv rest ih =>
      obtain ⟨k, v⟩ := kv
      by_cases hk : k = id
      · subst hk
        have hb : (k == id') = false := by simp [Ne.symm h]
        simp [setState, stateOfMap, hb]
      · have hb : (k == id) = false := by simp [hk]
        by_cases hk' : k = id'
        · subst hk'
          simp [setState, stateOfMap, hb]
        · have hb' : (k == id') = false := by simp [hk']
          simp only [setState, hb, Bool.false_eq_true, if_false, stateOfMap,
            List.find?_cons, hb'] at ih ⊢
          exact ih

theorem qinv_step {s s' : QueueState} (hinv : QInv s) (hstep : QStep s s') : QInv s' := by
  obtain ⟨hq, hnd, hwI, hwG, hwS⟩ := hinv
  cases hstep with
  | add item hfresh =>
      have hne_of_mem : ∀ it ∈ s.queue, it.task_id ≠ item.task_id := by
        intro it hit he
        have h1 := hq it hit
        rw [he] at h1
        exact absurd (hfresh.symm.trans h1) (by simp)
      have hself : ∀ id', id' ≠ item.task_id →
          stateOfMap (setState s.task_states item.task_id TaskState.queued) id' =
            stateOf s id' :=
        fun id' h => stateOfMap_setState_other _ _ _ _ h
      refine ⟨?_, ?_, ?_, ?_, ?_⟩
      · intro it hit
        rcases List.mem_append.mp hit with hmem | hmem
        · show stateOfMap (setState s.task_states item.task_id TaskState.queued) it.task_id =
            some TaskState.queued
          rw [hself _ (hne_of_mem it hmem)]
          exact hq it hmem
        · simp only [List.mem_singleton] at hmem
          subst hmem
          exact stateOfMap_setState_self _ _ _
      · show ((s.queue ++ [item]).map (fun i => i.task_id)).Nodup
        rw [List.map_append, List.nodup_append]
        refine ⟨hnd, by simp, ?_⟩
        intro x hx
        simp only [List.mem_map] at hx
        obtain ⟨it, hit, hxe⟩ := hx
        simp only [List.map_cons, List.map_nil, List.mem_singleton]
        intro hxe'
        exact hne_of_mem it hit (hxe.trans hxe')
      · intro hidle
        obtain ⟨hnp, hcur⟩ := hwI hidle
        refine ⟨?_, hcur⟩
        intro id hpl
        simp only [stateOf] at hpl
        by_cases hid : id = item.task_id
        · subst hid
          rw [stateOfMap_setState_self] at hpl
          exact absurd hpl (by simp)
        · rw [hself _ hid] at hpl
          exact hnp id hpl
      · intro it0 hgot
        obtain ⟨h1, h2, h3, h4⟩ := hwG it0 hgot
        have hne0 : it0.task_id ≠ item.task_id := by
          intro he
          rw [he] at h1
          exact absurd (hfresh.symm.trans h1) (by simp)
        refine ⟨?_, ?_, ?_, h4⟩
        · show stateOfMap _ it0.task_id = _
          rw [hself _ hne0]
          exact h1
        · intro q hqm
          rcases List.mem_append.mp hqm with hmem | hmem
          · exact h2 q hmem
          · simp only [List.mem_singleton] at hmem
            subst hmem
            exact fun he => hne0 he.symm
        · intro id hpl
          by_cases hid : id = item.task_id
          · subst hid
            simp only [stateOf] at hpl
            rw [stateOfMap_setState_self] at hpl
            exact absurd hpl (by simp)
          · simp only [stateOf] at hpl
            rw [hself _ hid] at hpl
            exact h3 id hpl
      · intro it0 hspk
        obtain ⟨h1, h2, h3, h4⟩ := hwS it0 hspk
        have hne0 : it0.task_id ≠ item.task_id := by
          intro he
          rw [he] at h1
          exact absurd (hfresh.symm.trans h1) (by simp)
        refine ⟨?_, ?_, h3, ?_⟩
        · show stateOfMap _ it0.task_id = _
          rw [hself _ hne0]
          exact h1
        · intro q hqm
          rcases List.mem_append.mp hqm with hmem | hmem
          · exact h2 q hmem
          · simp only [List.mem_singleton] at hmem
            subst hmem
            exact fun he => hne0 he.symm
        · intro id hpl
          by_cases hid : id = item.task_id
          · subst hid
            simp only [stateOf] at hpl
            rw [stateOfMap_setState_self] at hpl
            exact absurd hpl (by simp)
          · simp only [stateOf] at hpl
            rw [hself _ hid] at hpl
            exact h4 id hpl
  | dequeue item rest hwph hqe =>
      obtain ⟨hnp, hcur⟩ := hwI hwph
      refine ⟨?_, ?_, ?_, ?_, ?_⟩
      · intro it hit
        exact hq it (by rw [hqe]; exact List.mem_cons_of_mem _ hit)
      · have := hnd
        rw [show queueIdsNodup s = ((s.queue.map (fun i => i.task_id)).Nodup) from rfl,
          hqe] at this
        simp only [List.map_cons, List.nodup_cons] at this
        exact this.2
      · intro h
        exact absurd h (by simp)
      · intro it0 hgot
        have hit0 : item = it0 := by
          simpa using hgot
        subst hit0
        refine ⟨hq item (by rw [hqe]; exact List.mem_cons_self _ _), ?_, hnp, hcur⟩
        intro q hqm he
        have := hnd
        rw [show queueIdsNodup s = ((s.queue.map (fun i => i.task_id)).Nodup) from rfl,
          hqe] at this
        simp only [List.map_cons, List.nodup_cons] at this
        exact this.1 (he ▸ List.mem_map_of_mem (fun i => i.task_id) hqm)
      · intro it0 hspk
        exact absurd hspk (by simp)
  | mark_playing item hwph =>
      obtain ⟨h1, h2, h3, h4⟩ := hwG item hwph
      refine ⟨?_, ?_, ?_, ?_, ?_⟩
      · intro it hit
        show stateOfMap (setState s.task_states item.task_id TaskState.playing) it.task_id =
          some TaskState.queued
        rw [stateOfMap_setState_other _ _ _ _ (h2 it hit)]
        exact hq it hit
      · exact hnd
      · intro h
        exact absurd h (by simp)
      · intro it0 hgot
        exact absurd hgot (by simp)
      · intro it0 hspk
        have hit0 : item = it0 := by simpa using hspk
        subst hit0
        refine ⟨stateOfMap_setState_self _ _ _, h2, rfl, ?_⟩
        intro id hpl
        by_cases hid : id = item.task_id
        · exact hid
        · simp only [stateOf] at hpl
          rw [stateOfMap_setState_other _ _ _ _ hid] at hpl
          exact absurd hpl (h3 id)
  | finish item out hwph =>
      obtain ⟨h1, h2, h3, h4⟩ := hwS item hwph
      have hterm : speakResult out ≠ TaskState.playing := by
        cases out with
        | ok b => cases b <;> simp [speakResult]
        | exn m => simp [speakResult]
      refine ⟨?_, ?_, ?_, ?_, ?_⟩
      · intro it hit
        show stateOfMap (setState s.task_states item.task_id (speakResult out)) it.task_id =
          some TaskState.queued
        rw [stateOfMap_setState_other _ _ _ _ (h2 it hit)]
        exact hq it hit
      · exact hnd
      · intro _
        refine ⟨?_, rfl⟩
        intro id hpl
        by_cases hid : id = item.task_id
        · subst hid
          simp only [stateOf] at hpl
          rw [stateOfMap_setState_self] at hpl
          exact hterm (by simpa using hpl)
        · simp only [stateOf] at hpl
          rw [stateOfMap_setState_other _ _ _ _ hid] at hpl
          exact hid (h4 id hpl)
      · intro it0 hgot
        exact absurd hgot (by simp)
      · intro it0 hspk
        exact absurd hspk (by simp)
  | cancel_one item rest hqe =>
      have hqueued : stateOf s item.task_id = some TaskState.queued :=
        hq item (by rw [hqe]; exact List.mem_cons_self _ _)
      have hc : (stateOf s item.task_id).isSome = true := by rw [hqueued]; rfl
      have hnd' : ((item :: rest).map (fun i => i.task_id)).Nodup := by
        have := hnd
        rw [show queueIdsNodup s = ((s.queue.map (fun i => i.task_id)).Nodup) from rfl,
          hqe] at this
        exact this
      simp only [List.map_cons, List.nodup_cons] at hnd'
      have hrest_ne : ∀ q ∈ rest, q.task_id ≠ item.task_id := by
        intro q hqm he
        exact hnd'.1 (he ▸ List.mem_map_of_mem (fun i => i.task_id) hqm)
      have hts : (if (stateOfMap s.task_states item.task_id).isSome then
          setState s.task_states item.task_id TaskState.cancelled
        else s.task_states) = setState s.task_states item.task_id TaskState.cancelled :=
        if_pos hc
      refine ⟨?_, ?_, ?_, ?_, ?_⟩
      · intro it hit
        simp only [stateOf]
        rw [hts, stateOfMap_setState_other _ _ _ _ (hrest_ne it hit)]
        exact hq it (by rw [hqe]; exact List.mem_cons_of_mem _ hit)
      · exact hnd'.2
      · intro hidle
        obtain ⟨hnp, hcur⟩ := hwI hidle
        refine ⟨?_, hcur⟩
        intro id hpl
        simp only [stateOf] at hpl
        rw [hts] at hpl
        by_cases hid : id = item.task_id
        · subst hid
          rw [stateOfMap_setState_self] at hpl
          exact absurd hpl (by simp)
        · rw [stateOfMap_setState_other _ _ _ _ hid] at hpl
          exact hnp id hpl
      · intro it0 hgot
        obtain ⟨h1, h2, h3, h4⟩ := hwG it0 hgot
        have hne0 : it0.task_id ≠ item.task_id := by
          intro he
          exact h2 item (by rw [hqe]; exact List.mem_cons_self _ _) he.symm
        refine ⟨?_, ?_, ?_, h4⟩
        · simp only [stateOf]
          rw [hts, stateOfMap_setState_other _ _ _ _ hne0]
          exact h1
        · intro q hqm
          exact h2 q (by rw [hqe]; exact List.mem_cons_of_mem _ hqm)
        · intro id hpl
          simp only [stateOf] at hpl
          rw [hts] at hpl
          by_cases hid : id = item.task_id
          · subst hid
            rw [stateOfMap_setState_self] at hpl
            exact absurd hpl (by simp)
          · rw [stateOfMap_setState_other _ _ _ _ hid] at hpl
            exact h3 id hpl
      · intro it0 hspk
        obtain ⟨h1, h2, h3, h4⟩ := hwS it0 hspk
        have hne0 : it0.task_id ≠ item.task_id := by
          intro he
          exact h2 item (by rw [hqe]; exact List.mem_cons_self _ _) he.symm
        refine ⟨?_, ?_, h3, ?_⟩
        · simp only [stateOf]
          rw [hts, stateOfMap_setState_other _ _ _ _ hne0]
          exact h1
        · intro q hqm
          exact h2 q (by rw [hqe]; exact List.mem_cons_of_mem _ hqm)
        · intro id hpl
          simp only [stateOf] at hpl
          rw [hts] at hpl
          by_cases hid : id = item.task_id
          · subst hid
            rw [stateOfMap_setState_self] at hpl
            exact absurd hpl (by simp)
          · rw [stateOfMap_setState_other _ _ _ _ hid] at hpl
            exact h4 id hpl

theorem qinv_reachable {s : QueueState} (h : QReach s) : QInv s := by
  induction h with
  | init =>
      refine ⟨?_, ?_, ?_, ?_, ?_⟩
      · intro it hit
        exact absurd hit (List.not_mem_nil it)
      · simp [initQueueState, queueIdsNodup]
      · intro _
        exact ⟨fun id => by simp [initQueueState, stateOf, stateOfMap], rfl⟩
      · intro it0 h0
        exact absurd h0 (by simp [initQueueState])
      · intro it0 h0
        exact absurd h0 (by simp [initQueueState])
  | step _ hstep ih => exact qinv_step ih hstep

/-- C3: in every reachable state of the speech queue at most one task is
in the Playing state, and every observable state change performed by a
step follows the lifecycle `Queued→Playing→{Complete|Failed|Error}` or
`Queued→Cancelled` (task creation appearing as `none→Queued`). -/
theorem speech_queue_playing_unique_and_transitions_legal (s s' : QueueState)
    (hr : QReach s) (hstep : QStep s s') :
    (∀ i j, stateOf s i = some TaskState.playing →
      stateOf s j = some TaskState.playing → i = j) ∧
    (∀ id, stateOf s id ≠ stateOf s' id →
      allowedTransition (stateOf s id) (stateOf s' id)) := by
  obtain ⟨hq, hnd, hwI, hwG, hwS⟩ := qinv_reachable hr
  constructor
  · intro i j hi hj
    cases hphase : s.worker with
    | idle => exact absurd hi ((hwI hphase).1 i)
    | got it0 => exact absurd hi ((hwG it0 hphase).2.2.1 i)
    | speaking it0 =>
        have h4 := (hwS it0 hphase).2.2.2
        rw [h4 i hi, h4 j hj]
  · intro id hne
    cases hstep with
    | add item hfresh =>
        by_cases hid : id = item.task_id
        · subst hid
          rw [hfresh]
          simp only [stateOf]
          rw [stateOfMap_setState_self]
          exact trivial
        · exfalso
          apply hne
          simp only [stateOf]
          rw [stateOfMap_setState_other _ _ _ _ hid]
    | dequeue item rest hwph hqe => exact absurd rfl hne
    | mark_playing item hwph =>
        obtain ⟨h1, h2, h3, h4⟩ := hwG item hwph
        by_cases hid : id = item.task_id
        · subst hid
          rw [h1]
          simp only [stateOf]
          rw [stateOfMap_setState_self]
          exact trivial
        · exfalso
          apply hne
          simp only [stateOf]
          rw [stateOfMap_setState_other _ _ _ _ hid]
    | finish item out hwph =>
        obtain ⟨h1, h2, h3, h4⟩ := hwS item hwph
        by_cases hid : id = item.task_id
        · subst hid
          rw [h1]
          simp only [stateOf]
          rw [stateOfMap_setState_self]
          cases out with
          | ok b => cases b <;> exact trivial
          | exn m => exact trivial
        · exfalso
          apply hne
          simp only [stateOf]
          rw [stateOfMap_setState_other _ _ _ _ hid]
    | cancel_one item rest hqe =>
        have hqueued : stateOf s item.task_id = some TaskState.queued :=
          hq item (by rw [hqe]; exact List.mem_cons_self _ _)
        have hc : (stateOf s item.task_id).isSome = true := by rw [hqueued]; rfl
        have hts : (if (stateOfMap s.task_states item.task_id).isSome then
            setState s.task_states item.task_id TaskState.cancelled
          else s.task_states) = setState s.task_states item.task_id TaskState.cancelled :=
          if_pos hc
        have hqueued2 : stateOfMap s.task_states item.task_id =
            some TaskState.queued := hqueued
        by_cases hid : id = item.task_id
        · subst hid
          simp only [stateOf]
          rw [hts, stateOfMap_setState_self, hqueued2]
          exact trivial
        · exfalso
          apply hne
          simp only [stateOf]
          rw [hts, stateOfMap_setState_other _ _ _ _ hid]

theorem speech_queue_playing_unique_and_transitions_legal_witness :
    (∀ i j, stateOf qsA i = some TaskState.playing →
      stateOf qsA j = some TaskState.playing → i = j) ∧
    (∀ id, stateOf qsA id ≠ stateOf qsB id →
      allowedTransition (stateOf qsA id) (stateOf qsB id)) :=
  speech_queue_playing_unique_and_transitions_legal qsA qsB
    (QReach.step QReach.init (QStep.add initQueueState ⟨"a", "ping"⟩ rfl))
    (QStep.dequeue qsA ⟨"a", "ping"⟩ [] rfl rfl)

theorem clear_drain_other (id : String) :
    ∀ (items : List SpeechItem) (m : List (String × TaskState)),
      (∀ item ∈ items, item.task_id ≠ id) →
      stateOfMap (clear_queue_drain items m) id = stateOfMap m id := by
  intro items
  induction items with
  | nil => intro m _; rfl
  | cons it rest ih =>
      intro m h
      simp only [clear_queue_drain]
      rw [ih _ (fun x hx => h x (List.mem_cons_of_mem _ hx))]
      by_cases hs : (stateOfMap m it.task_id).isSome = true
      · rw [if_pos hs]
        exact stateOfMap_setState_other _ _ _ _ (h it (List.mem_cons_self _ _)).symm
      · rw [if_neg hs]

theorem clear_drain_mem :
    ∀ (items : List SpeechItem) (m : List (String × TaskState)),
      ((items.map (fun i => i.task_id)).Nodup) →
      (∀ item ∈ items, (stateOfMap m item.task_id).isSome = true) →
      ∀ item ∈ items,
        stateOfMap (clear_queue_drain items m) item.task_id = some TaskState.cancelled := by
  intro items
  induction items with
  | nil => intro m _ _ item hmem; exact absurd hmem (List.not_mem_nil item)
  | cons it rest ih =>
      intro m hnd hsome item hmem
      simp only [List.map_cons, List.nodup_cons] at hnd
      have hm' : (if (stateOfMap m it.task_id).isSome then
            setState m it.task_id TaskState.cancelled
          else m) = setState m it.task_id TaskState.cancelled :=
        if_pos (hsome it (List.mem_cons_self _ _))
      rcases List.mem_cons.mp hmem with he | hmem'
      · subst he
        simp only [clear_queue_drain, hm']
        rw [clear_drain_other item.task_id rest _
          (fun r hr he' => hnd.1 (by rw [← he']; exact List.mem_map_of_mem (fun i => i.task_id) hr))]
        exact stateOfMap_setState_self _ _ _
      · simp only [clear_queue_drain, hm']
        refine ih _ hnd.2 ?_ item hmem'
        intro r hr
        by_cases hre : r.task_id = it.task_id
        · exact absurd (hre ▸ List.mem_map_of_mem (fun i => i.task_id) hr) hnd.1
        · rw [stateOfMap_setState_other _ _ _ _ hre]
          exact hsome r (List.mem_cons_of_mem _ hr)

/-- C10: `clear_queue` marks every not-yet-dequeued task Cancelled and
changes nothing else — any task its id not in the pending queue keeps
its exact state (in particular a currently Playing task and every
already-terminal task, which by the queue invariant are never in the
pending queue), and `current_task` and the worker position are
untouched. -/
theorem clear_queue_cancels_only_pending (s : QueueState) (hr : QReach s) :
    (∀ item ∈ s.queue, stateOf (clear_queue s) item.task_id = some TaskState.cancelled) ∧
    (∀ id, (∀ item ∈ s.queue, item.task_id ≠ id) →
      stateOf (clear_queue s) id = stateOf s id) ∧
    (∀ id st0, stateOf s id = some st0 → st0 ≠ TaskState.queued →
      stateOf (clear_queue s) id = some st0) ∧
    (clear_queue s).current_task = s.current_task ∧
    (clear_queue s).worker = s.worker := by
  obtain ⟨hq, hnd, _, _, _⟩ := qinv_reachable hr
  have hsome : ∀ item ∈ s.queue, (stateOfMap s.task_states item.task_id).isSome = true := by
    intro item hmem
    have h := hq item hmem
    rw [show stateOf s item.task_id = stateOfMap s.task_states item.task_id from rfl] at h
    rw [h]
    rfl
  refine ⟨?_, ?_, ?_, rfl, rfl⟩
  · intro item hmem
    exact clear_drain_mem s.queue s.task_states hnd hsome item hmem
  · intro id hid
    exact clear_drain_other id s.queue s.task_states hid
  · intro id st0 hst hnq
    have hid : ∀ item ∈ s.queue, item.task_id ≠ id := by
      intro item hmem he
      have h := hq item hmem
      rw [he, hst] at h
      exact hnq (Option.some.inj h)
    show stateOfMap (clear_queue_drain s.queue s.task_states) id = some st0
    rw [clear_drain_other id s.queue s.task_states hid]
    exact hst

theorem qsScenario_reachable : QReach qsScenario := by
  have h1 : QReach (QueueState.mk [("a", TaskState.queued)]
      [SpeechItem.mk "a" "t1"] Option.none WorkerPhase.idle) :=
    QReach.step QReach.init (QStep.add initQueueState (SpeechItem.mk "a" "t1") rfl)
  have h2 : QReach (QueueState.mk [("a", TaskState.queued), ("b", TaskState.queued)]
      [SpeechItem.mk "a" "t1", SpeechItem.mk "b" "t2"] Option.none WorkerPhase.idle) :=
    QReach.step h1 (QStep.add _ (SpeechItem.mk "b" "t2") rfl)
  have h3 : QReach (QueueState.mk
      [("a", TaskState.queued), ("b", TaskState.queued), ("c", TaskState.queued)]
      [SpeechItem.mk "a" "t1", SpeechItem.mk "b" "t2", SpeechItem.mk "c" "t3"]
      Option.none WorkerPhase.idle) :=
    QReach.step h2 (QStep.add _ (SpeechItem.mk "c" "t3") rfl)
  have h4 : QReach (QueueState.mk
      [("a", TaskState.queued), ("b", TaskState.queued), ("c", TaskState.queued),
        ("d", TaskState.queued)]
      [SpeechItem.mk "a" "t1", SpeechItem.mk "b" "t2", SpeechItem.mk "c" "t3",
        SpeechItem.mk "d" "t4"]
      Option.none WorkerPhase.idle) :=
    QReach.step h3 (QStep.add _ (SpeechItem.mk "d" "t4") rfl)
  have h5 : QReach (QueueState.mk
      [("a", TaskState.queued), ("b", TaskState.queued), ("c", TaskState.queued),
        ("d", TaskState.queued)]
      [SpeechItem.mk "b" "t2", SpeechItem.mk "c" "t3", SpeechItem.mk "d" "t4"]
      Option.none (WorkerPhase.got (SpeechItem.mk "a" "t1"))) :=
    QReach.step h4 (QStep.dequeue _ (SpeechItem.mk "a" "t1")
      [SpeechItem.mk "b" "t2", SpeechItem.mk "c" "t3", SpeechItem.mk "d" "t4"] rfl rfl)
  exact QReach.step h5 (QStep.mark_playing _ (SpeechItem.mk "a" "t1") rfl)

theorem clear_queue_cancels_only_pending_witness :
    (∀ item ∈ qsScenario.queue,
      stateOf (clear_queue qsScenario) item.task_id = some TaskState.cancelled) ∧
    (∀ id, (∀ item ∈ qsScenario.queue, item.task_id ≠ id) →
      stateOf (clear_queue qsScenario) id = stateOf qsScenario id) ∧
    (∀ id st0, stateOf qsScenario id = some st0 → st0 ≠ TaskState.queued →
      stateOf (clear_queue qsScenario) id = some st0) ∧
    (clear_queue qsScenario).current_task = qsScenario.current_task ∧
    (clear_queue qsScenario).worker = qsScenario.worker :=
  clear_queue_cancels_only_pending qsScenario qsScenario_reachable

theorem process_queue_run_other (speak : String → SpeakOutcome) :
    ∀ (items : List SpeechItem) (s : QueueState) (id : String),
      (∀ item ∈ items, item.task_id ≠ id) →
      stateOf (process_queue_run speak items s) id = stateOf s id := by
  intro items
  induction items with
  | nil => intro s id _; rfl
  | cons it rest ih =>
      intro s id h
      simp only [process_queue_run]
      rw [ih _ _ (fun x hx => h x (List.mem_cons_of_mem _ hx))]
      show stateOfMap (setState (setState s.task_states it.task_id TaskState.playing)
        it.task_id (speakResult (speak it.text))) id = stateOfMap s.task_states id
      rw [stateOfMap_setState_other _ _ _ _ (h it (List.mem_cons_self _ _)).symm,
        stateOfMap_setState_other _ _ _ _ (h it (List.mem_cons_self _ _)).symm]

/-- C9: for every dequeued task the worker ends in Complete when the
synthesis collaborator returns `true`, Failed when it returns `false`,
and Error when it raises — and this holds for every item of the drained
list, i.e. the loop continues past bad tasks instead of halting. -/
theorem worker_marks_outcome_and_continues (speak : String → SpeakOutcome) :
    ∀ (items : List SpeechItem) (s : QueueState),
      ((items.map (fun i => i.task_id)).Nodup) →
      ∀ item ∈ items,
        stateOf (process_queue_run speak items s) item.task_id =
          some (match speak item.text with
            | SpeakOutcome.ok true => TaskState.complete
            | SpeakOutcome.ok false => TaskState.failed
            | SpeakOutcome.exn _ => TaskState.error) := by
  intro items
  induction items with
  | nil => intro s _ item hmem; exact absurd hmem (List.not_mem_nil item)
  | cons it rest ih =>
      intro s hnd item hmem
      simp only [List.map_cons, List.nodup_cons] at hnd
      rcases List.mem_cons.mp hmem with he | hmem'
      · subst he
        simp only [process_queue_run]
        rw [process_queue_run_other speak rest _ _
          (fun r hr he' => hnd.1 (by rw [← he']; exact List.mem_map_of_mem (fun i => i.task_id) hr))]
        show stateOfMap (setState (setState s.task_states item.task_id TaskState.playing)
          item.task_id (speakResult (speak item.text))) item.task_id = _
        rw [stateOfMap_setState_self]
        cases hsp : speak item.text with
        | ok b => cases b <;> simp [speakResult]
        | exn m => simp [speakResult]
      · simp only [process_queue_run]
        exact ih _ hnd.2 item hmem'

theorem worker_marks_outcome_and_continues_witness :
    ((speakItems.map (fun i => i.task_id)).Nodup) ∧
    ∀ item ∈ speakItems,
      stateOf (process_queue_run speakScript speakItems initQueueState) item.task_id =
        some (match speakScript item.text with
          | SpeakOutcome.ok true => TaskState.complete
          | SpeakOutcome.ok false => TaskState.failed
          | SpeakOutcome.exn _ => TaskState.error) :=
  ⟨by decide, worker_marks_outcome_and_continues speakScript speakItems initQueueState (by decide)⟩

theorem skipWs_sp (l : List Char) : skipWs (' ' :: l) = skipWs l := by
  rw [skipWs]
  exact if_pos (Or.inl rfl)

theorem skipWs_ch (c : Char) (l : List Char)
    (h : ¬(c = ' ' ∨ c = '\n' ∨ c = '\t' ∨ c = '\r')) : skipWs (c :: l) = c :: l := by
  rw [skipWs]
  exact if_neg h

theorem parseStringBody_plain (s rest : List Char)
    (h : ∀ c ∈ s, c ≠ '"' ∧ c ≠ '\\') :
    parseStringBody (s ++ '"' :: rest) = some (s, rest) := by
  induction s with
  | nil => simp [parseStringBody]
  | cons c cs ih =>
      obtain ⟨h1, h2⟩ := h c (List.mem_cons_self _ _)
      rw [List.cons_append, parseStringBody, if_neg h1, if_neg h2,
        ih (fun x hx => h x (List.mem_cons_of_mem _ hx))]

theorem dropWhile_append_all (p : Char → Bool) (l1 l2 : List Char)
    (h : ∀ x ∈ l1, p x = true) :
    (l1 ++ l2).dropWhile p = l2.dropWhile p := by
  induction l1 with
  | nil => rfl
  | cons c cs ih =>
      simp only [List.cons_append, List.dropWhile_cons, h c (List.mem_cons_self _ _)]
      exact ih (fun x hx => h x (List.mem_cons_of_mem _ hx))

theorem takeToLastClose_obj (front post : List Char) (hpost : '\x7d' ∉ post) :
    takeToLastClose ((front ++ ['\x7d']) ++ post) = front ++ ['\x7d'] := by
  unfold takeToLastClose
  rw [List.reverse_append, List.reverse_append]
  simp only [List.reverse_cons, List.reverse_nil, List.nil_append]
  rw [dropWhile_append_all _ _ _ ?hall]
  case hall =>
    intro x hx
    simp only [bne_iff_ne, ne_eq]
    intro he
    exact hpost (he ▸ (List.mem_reverse.mp hx))
  rw [List.singleton_append, List.dropWhile_cons]
  simp

theorem regexSearchTool_skip_pre (pre rest : List Char) (h : '\x7b' ∉ pre) :
    regexSearchTool (pre ++ rest) = regexSearchTool rest := by
  induction pre with
  | nil => rfl
  | cons c pre' ih =>
      have hc : c ≠ '\x7b' := fun he => h (he ▸ List.mem_cons_self _ _)
      rw [List.cons_append, regexSearchTool, if_neg ?hng]
      case hng =>
        intro hmt
        simp only [matchFromHere, Bool.and_eq_true, beq_iff_eq] at hmt
        exact hc hmt.1
      exact ih (fun hm => h (List.mem_cons_of_mem _ hm))

theorem matchFromHere_obj (rest0 post : List Char)
    (hpre : toolLit.isPrefixOf rest0 = true)
    (hbr : '\x7d' ∈ rest0.drop 6) :
    matchFromHere ('\x7b' :: (rest0 ++ post)) = true := by
  simp only [matchFromHere, Bool.and_eq_true, beq_self_eq_true, true_and]
  have hlen : 6 ≤ rest0.length := by
    have := List.isPrefixOf_iff_prefix.mp hpre
    have hle := this.length_le
    simpa [toolLit] using hle
  obtain ⟨c, rest0', rfl⟩ : ∃ c rest0', rest0 = c :: rest0' := by
    cases rest0 with
    | nil => simp at hlen
    | cons c r => exact ⟨c, r, rfl⟩
  simp only [toolThenBrace]
  apply Bool.or_eq_true_iff.mpr
  left
  apply Bool.and_eq_true_iff.mpr
  constructor
  · rw [List.isPrefixOf_iff_prefix] at hpre ⊢
    exact hpre.trans (List.prefix_append _ _)
  · show (List.drop 6 ((c :: rest0') ++ post)).contains '\x7d' = true
    rw [List.drop_append_of_le_length hlen]
    have : '\x7d' ∈ (c :: rest0').drop 6 ++ post :=
      List.mem_append.mpr (Or.inl hbr)
    exact List.elem_iff.mpr this

theorem paramsJson_toList_single (k v : String) :
    (paramsJson [(k, v)]).toList =
      '"' :: (k.toList ++ '"' :: ':' :: ' ' :: '"' :: (v.toList ++ ['"'])) := by
  have h1 : ("\"" : String).data = ['"'] := rfl
  have h2 : ("\": \"" : String).data = ['"', ':', ' ', '"'] := rfl
  simp only [paramsJson, String.toList, String.data_append, h1, h2, List.append_assoc,
    List.singleton_append, List.cons_append, List.nil_append]

theorem paramsJson_toList_cons (k v : String) (p : String × String)
    (r : List (String × String)) :
    (paramsJson ((k, v) :: p :: r)).toList =
      '"' :: (k.toList ++ '"' :: ':' :: ' ' :: '"' ::
        (v.toList ++ '"' :: ',' :: ' ' :: (paramsJson (p :: r)).toList)) := by
  have h1 : ("\"" : String).data = ['"'] := rfl
  have h2 : ("\": \"" : String).data = ['"', ':', ' ', '"'] := rfl
  have h3 : ("\", " : String).data = ['"', ',', ' '] := rfl
  simp only [paramsJson, String.toList, String.data_append, h1, h2, h3, List.append_assoc,
    List.singleton_append, List.cons_append, List.nil_append]

theorem parseJString_plain (k rest : List Char) (h : ∀ c ∈ k, c ≠ '"' ∧ c ≠ '\\') :
    parseJString ('"' :: (k ++ '"' :: rest)) = some (String.mk k, rest) := by
  simp only [parseJString, skipWs_ch '"' (k ++ '"' :: rest) (by decide), eq_self_iff_true,
    if_true, parseStringBody_plain k rest h]

theorem parseJVal_str_sp (f : Nat) (v rest : List Char)
    (h : ∀ c ∈ v, c ≠ '"' ∧ c ≠ '\\') :
    parseJVal (f + 1) (' ' :: '"' :: (v ++ '"' :: rest)) =
      some (JVal.str (String.mk v), rest) := by
  simp only [parseJVal, skipWs_sp, skipWs_ch '"' (v ++ '"' :: rest) (by decide),
    eq_self_iff_true, if_true, parseStringBody_plain v rest h]

theorem parseJFieldList_sp (f : Nat) (s : List Char) :
    parseJFieldList (f + 1) (' ' :: s) = parseJFieldList (f + 1) s := by
  simp only [parseJFieldList, parseJString, skipWs_sp]

theorem parseJFieldList_roundtrip :
    ∀ (ps : List (String × String)) (f : Nat) (rest : List Char),
      ps ≠ [] →
      (∀ p ∈ ps, (∀ c ∈ p.1.toList, c ≠ '"' ∧ c ≠ '\\') ∧
        (∀ c ∈ p.2.toList, c ≠ '"' ∧ c ≠ '\\')) →
      2 * ps.length ≤ f →
      parseJFieldList f ((paramsJson ps).toList ++ '\x7d' :: rest) =
        some (paramsJVal ps, rest) := by
  intro ps
  induction ps with
  | nil => intro f rest h; exact absurd rfl h
  | cons kv r ih =>
      obtain ⟨k, v⟩ := kv
      intro f rest _ hplain hf
      obtain ⟨hk, hv⟩ := hplain (k, v) (List.mem_cons_self _ _)
      simp only [List.length_cons] at hf
      obtain ⟨f2, rfl⟩ : ∃ f2, f = f2 + 2 := ⟨f - 2, by omega⟩
      cases r with
      | nil =>
          rw [paramsJson_toList_single]
          have hshape :
              (('"' :: (k.toList ++ '"' :: ':' :: ' ' :: '"' :: (v.toList ++ ['"']))) ++
                '\x7d' :: rest) =
              '"' :: (k.toList ++ '"' :: ':' :: ' ' :: '"' ::
                (v.toList ++ '"' :: '\x7d' :: rest)) := by
            simp
          rw [hshape]
          show parseJFieldList (f2 + 1 + 1) _ = _
          simp only [parseJFieldList,
            parseJString_plain k.toList
              (':' :: ' ' :: '"' :: (v.toList ++ '"' :: '\x7d' :: rest)) hk,
            skipWs_ch ':' (' ' :: '"' :: (v.toList ++ '"' :: '\x7d' :: rest)) (by decide),
            eq_self_iff_true, if_true,
            parseJVal_str_sp f2 v.toList ('\x7d' :: rest) hv,
            skipWs_ch '\x7d' rest (by decide)]
          rfl
      | cons p r' =>
          rw [paramsJson_toList_cons]
          have hshape :
              (('"' :: (k.toList ++ '"' :: ':' :: ' ' :: '"' ::
                (v.toList ++ '"' :: ',' :: ' ' :: (paramsJson (p :: r')).toList))) ++
                '\x7d' :: rest) =
              '"' :: (k.toList ++ '"' :: ':' :: ' ' :: '"' ::
                (v.toList ++ '"' :: ',' :: ' ' ::
                  ((paramsJson (p :: r')).toList ++ '\x7d' :: rest))) := by
            simp
          rw [hshape]
          show parseJFieldList ((f2 + 1) + 1) _ = _
          generalize hm : f2 + 1 = m
          simp only [parseJFieldList,
            parseJString_plain k.toList
              (':' :: ' ' :: '"' ::
                (v.toList ++ '"' :: ',' :: ' ' ::
                  ((paramsJson (p :: r')).toList ++ '\x7d' :: rest))) hk,
            skipWs_ch ':' (' ' :: '"' ::
              (v.toList ++ '"' :: ',' :: ' ' ::
                ((paramsJson (p :: r')).toList ++ '\x7d' :: rest))) (by decide),
            eq_self_iff_true, if_true]
          rw [← hm]
          simp only [parseJVal_str_sp f2 v.toList
              (',' :: ' ' :: ((paramsJson (p :: r')).toList ++ '\x7d' :: rest)) hv,
            skipWs_ch ',' (' ' :: ((paramsJson (p :: r')).toList ++ '\x7d' :: rest))
              (by decide),
            eq_self_iff_true, if_true]
          rw [parseJFieldList_sp f2 ((paramsJson (p :: r')).toList ++ '\x7d' :: rest),
            ih (f2 + 1) rest (by simp)
              (fun q hq => hplain q (List.mem_cons_of_mem _ hq))
              (by simp only [List.length_cons] at hf ⊢; omega)]
          rfl

theorem skipWs_quote (l : List Char) : skipWs ('"' :: l) = '"' :: l :=
  skipWs_ch _ _ (by decide)

theorem skipWs_colon (l : List Char) : skipWs (':' :: l) = ':' :: l :=
  skipWs_ch _ _ (by decide)

theorem skipWs_comma (l : List Char) : skipWs (',' :: l) = ',' :: l :=
  skipWs_ch _ _ (by decide)

theorem skipWs_lbrace (l : List Char) : skipWs ('\x7b' :: l) = '\x7b' :: l :=
  skipWs_ch _ _ (by decide)

theorem skipWs_rbrace (l : List Char) : skipWs ('\x7d' :: l) = '\x7d' :: l :=
  skipWs_ch _ _ (by decide)

theorem parseJString_tool (rest : List Char) :
    parseJString ('"' :: 't' :: 'o' :: 'o' :: 'l' :: '"' :: rest) = some ("tool", rest) :=
  parseJString_plain ['t', 'o', 'o', 'l'] rest (by decide)

theorem parseJString_parameters (rest : List Char) :
    parseJString ('"' :: 'p' :: 'a' :: 'r' :: 'a' :: 'm' :: 'e' :: 't' :: 'e' :: 'r' :: 's' ::
      '"' :: rest) = some ("parameters", rest) :=
  parseJString_plain ['p', 'a', 'r', 'a', 'm', 'e', 't', 'e', 'r', 's'] rest (by decide)

theorem parseJObjBody_params (ps : List (String × String)) (f : Nat) (rest : List Char)
    (hplain : ∀ p ∈ ps, (∀ c ∈ p.1.toList, c ≠ '"' ∧ c ≠ '\\') ∧
      (∀ c ∈ p.2.toList, c ≠ '"' ∧ c ≠ '\\'))
    (hf : 2 * ps.length + 1 ≤ f) :
    parseJObjBody f ((paramsJson ps).toList ++ '\x7d' :: rest) = some (paramsJVal ps, rest) := by
  obtain ⟨f1, rfl⟩ : ∃ f1, f = f1 + 1 := ⟨f - 1, by omega⟩
  cases ps with
  | nil =>
      have h0 : (paramsJson []).toList ++ '\x7d' :: rest = '\x7d' :: rest := rfl
      rw [h0]
      simp only [parseJObjBody, skipWs_rbrace, eq_self_iff_true, if_true]
      rfl
  | cons q qs =>
      obtain ⟨qk, qv⟩ := q
      obtain ⟨tail, htail⟩ : ∃ tail, (paramsJson ((qk, qv) :: qs)).toList = '"' :: tail := by
        cases qs with
        | nil => exact ⟨_, paramsJson_toList_single qk qv⟩
        | cons p r => exact ⟨_, paramsJson_toList_cons qk qv p r⟩
      rw [htail, List.cons_append]
      simp only [parseJObjBody, skipWs_quote]
      rw [if_neg (by decide : ¬(('"' : Char) = '\x7d'))]
      rw [← List.cons_append, ← htail]
      exact parseJFieldList_roundtrip ((qk, qv) :: qs) f1 rest (by simp) hplain
        (by simp only [List.length_cons] at hf ⊢; omega)

theorem parseJVal_obj_sp (f : Nat) (ps : List (String × String)) (rest : List Char)
    (hplain : ∀ p ∈ ps, (∀ c ∈ p.1.toList, c ≠ '"' ∧ c ≠ '\\') ∧
      (∀ c ∈ p.2.toList, c ≠ '"' ∧ c ≠ '\\'))
    (hf : 2 * ps.length + 1 ≤ f) :
    parseJVal (f + 1) (' ' :: '\x7b' :: ((paramsJson ps).toList ++ '\x7d' :: rest)) =
      some (JVal.obj (paramsJVal ps), rest) := by
  simp only [parseJVal, skipWs_sp, skipWs_lbrace]
  rw [parseJObjBody_params ps f rest hplain hf,
    if_neg (by decide : ¬(('\x7b' : Char) = '"')), if_pos trivial]

theorem toolCallJson_toList (tool : String) (params : List (String × String)) :
    (toolCallJson tool params).toList =
      '\x7b' :: '"' :: 't' :: 'o' :: 'o' :: 'l' :: '"' :: ':' :: ' ' :: '"' ::
        (tool.toList ++ '"' :: ',' :: ' ' :: '"' :: 'p' :: 'a' :: 'r' :: 'a' :: 'm' ::
          'e' :: 't' :: 'e' :: 'r' :: 's' :: '"' :: ':' :: ' ' :: '\x7b' ::
          ((paramsJson params).toList ++ ['\x7d', '\x7d'])) := by
  have h1 : ("\x7b\"tool\": \"" : String).data =
      ['\x7b', '"', 't', 'o', 'o', 'l', '"', ':', ' ', '"'] := rfl
  have h2 : ("\", \"parameters\": \x7b" : String).data =
      ['"', ',', ' ', '"', 'p', 'a', 'r', 'a', 'm', 'e', 't', 'e', 'r', 's', '"',
        ':', ' ', '\x7b'] := rfl
  have h3 : ("\x7d\x7d" : String).data = ['\x7d', '\x7d'] := rfl
  simp only [toolCallJson, String.toList, String.data_append, h1, h2, h3, List.append_assoc,
    List.cons_append, List.nil_append]

theorem paramsJson_length_lb (ps : List (String × String)) :
    2 * ps.length ≤ (paramsJson ps).toList.length + 2 := by
  induction ps with
  | nil => simp
  | cons q r ih =>
      obtain ⟨k, v⟩ := q
      cases r with
      | nil => simp [paramsJson_toList_single]
      | cons p r' =>
          rw [paramsJson_toList_cons]
          simp only [List.length_cons, List.length_append] at ih ⊢
          omega

theorem parseJVal_toolCallJson (tool : String) (params : List (String × String))
    (f : Nat) (rest : List Char)
    (htool : ∀ c ∈ tool.toList, c ≠ '"' ∧ c ≠ '\\')
    (hplain : ∀ p ∈ params, (∀ c ∈ p.1.toList, c ≠ '"' ∧ c ≠ '\\') ∧
      (∀ c ∈ p.2.toList, c ≠ '"' ∧ c ≠ '\\'))
    (hf : 2 * params.length + 6 ≤ f) :
    parseJVal f ((toolCallJson tool params).toList ++ rest) =
      some (JVal.obj [("tool", JVal.str tool),
        ("parameters", JVal.obj (paramsJVal params))], rest) := by
  obtain ⟨g, hg, rfl⟩ : ∃ g, 2 * params.length + 1 ≤ g ∧ f = g + 5 :=
    ⟨f - 5, by omega, by omega⟩
  have hsh : (toolCallJson tool params).toList ++ rest =
      '\x7b' :: '"' :: 't' :: 'o' :: 'o' :: 'l' :: '"' :: ':' :: ' ' :: '"' ::
        (tool.toList ++ '"' :: ',' :: ' ' :: '"' :: 'p' :: 'a' :: 'r' :: 'a' :: 'm' ::
          'e' :: 't' :: 'e' :: 'r' :: 's' :: '"' :: ':' :: ' ' :: '\x7b' ::
          ((paramsJson params).toList ++ '\x7d' :: '\x7d' :: rest)) := by
    rw [toolCallJson_toList]
    simp
  rw [hsh]
  show parseJVal ((g + 4) + 1) _ = _
  simp only [parseJVal, skipWs_lbrace, eq_self_iff_true, if_true,
    eq_false (by decide : ¬(('\x7b' : Char) = '"')), if_false]
  rw [show g + 4 = (g + 3) + 1 from rfl]
  simp only [parseJObjBody, skipWs_quote,
    eq_false (by decide : ¬(('"' : Char) = '\x7d')), if_false]
  rw [show g + 3 = (g + 2) + 1 from rfl]
  generalize hm1 : g + 2 = m1
  simp only [parseJFieldList, parseJString_tool, skipWs_colon, eq_self_iff_true, if_true]
  rw [← hm1]
  rw [show g + 2 = (g + 1) + 1 from rfl,
    parseJVal_str_sp (g + 1) tool.toList
      (',' :: ' ' :: '"' :: 'p' :: 'a' :: 'r' :: 'a' :: 'm' :: 'e' :: 't' :: 'e' :: 'r' ::
        's' :: '"' :: ':' :: ' ' :: '\x7b' ::
        ((paramsJson params).toList ++ '\x7d' :: '\x7d' :: rest)) htool]
  simp only [skipWs_comma, eq_self_iff_true, if_true]
  rw [parseJFieldList_sp (g + 1)
    ('"' :: 'p' :: 'a' :: 'r' :: 'a' :: 'm' :: 'e' :: 't' :: 'e' :: 'r' :: 's' :: '"' ::
      ':' :: ' ' :: '\x7b' :: ((paramsJson params).toList ++ '\x7d' :: '\x7d' :: rest))]
  rw [show g + 1 + 1 = (g + 1) + 1 from rfl]
  generalize hm2 : g + 1 = m2
  simp only [parseJFieldList, parseJString_parameters, skipWs_colon, eq_self_iff_true,
    if_true]
  rw [← hm2]
  rw [show g + 1 = g + 1 from rfl,
    parseJVal_obj_sp g params ('\x7d' :: rest) hplain hg]
  simp only [skipWs_rbrace, eq_self_iff_true, if_true,
    eq_false (by decide : ¬(('\x7d' : Char) = ',')), if_false]
  rfl

theorem jsonLoads_toolCallJson (tool : String) (params : List (String × String))
    (htool : ∀ c ∈ tool.toList, c ≠ '"' ∧ c ≠ '\\')
    (hplain : ∀ p ∈ params, (∀ c ∈ p.1.toList, c ≠ '"' ∧ c ≠ '\\') ∧
      (∀ c ∈ p.2.toList, c ≠ '"' ∧ c ≠ '\\')) :
    jsonLoads ((toolCallJson tool params).toList) =
      some (JVal.obj [("tool", JVal.str tool),
        ("parameters", JVal.obj (paramsJVal params))]) := by
  have hlen : 2 * params.length + 6 ≤ (toolCallJson tool params).toList.length + 1 := by
    rw [toolCallJson_toList]
    have := paramsJson_length_lb params
    simp only [List.length_cons, List.length_append]
    omega
  have h := parseJVal_toolCallJson tool params
    ((toolCallJson tool params).toList.length + 1) [] htool hplain hlen
  rw [List.append_nil] at h
  unfold jsonLoads
  rw [h]
  rfl

theorem toolLit_startOfObj (l : List Char) :
    toolLit.isPrefixOf ('"' :: 't' :: 'o' :: 'o' :: 'l' :: '"' :: l) = true := by
  simp [toolLit, List.isPrefixOf]

/-- C2 (amended): for every text consisting of a single canonical
well-formed `\x7b"tool": ..., "parameters": \x7b...\x7d\x7d` object (string-valued
parameters, plain names and values) embedded in surrounding prose, the
extractor returns that tool name and those parameters — provided the
leading prose contains no `\x7b` and the trailing prose contains no `\x7d`,
since the greedy regex anchors on the first `\x7b` and the last `\x7d` of
the whole text. -/
theorem extractor_extracts_embedded_call
    (tool : String) (params : List (String × String)) (pre post : String)
    (htne : tool ≠ "")
    (htool : plainChars tool)
    (hparams : ∀ p ∈ params, plainChars p.1 ∧ plainChars p.2)
    (hpre : '\x7b' ∉ pre.toList)
    (hpost : '\x7d' ∉ post.toList) :
    parse_tool_call (pre ++ toolCallJson tool params ++ post) =
      some (tool, JVal.obj (paramsJVal params)) := by
  have htool' : ∀ c ∈ tool.toList, c ≠ '"' ∧ c ≠ '\\' :=
    fun c hc => ⟨(htool c hc).1, (htool c hc).2.1⟩
  have hparams' : ∀ p ∈ params, (∀ c ∈ p.1.toList, c ≠ '"' ∧ c ≠ '\\') ∧
      (∀ c ∈ p.2.toList, c ≠ '"' ∧ c ≠ '\\') :=
    fun p hp => ⟨fun c hc => ⟨((hparams p hp).1 c hc).1, ((hparams p hp).1 c hc).2.1⟩,
      fun c hc => ⟨((hparams p hp).2 c hc).1, ((hparams p hp).2 c hc).2.1⟩⟩
  have hdata : (pre ++ toolCallJson tool params ++ post).toList =
      pre.toList ++ ((toolCallJson tool params).toList ++ post.toList) := by
    show (pre ++ toolCallJson tool params ++ post).data = _
    rw [String.data_append, String.data_append, List.append_assoc]
    rfl
  unfold parse_tool_call
  rw [hdata, regexSearchTool_skip_pre pre.toList _ hpre, toolCallJson_toList,
    List.cons_append]
  simp only [regexSearchTool]
  rw [if_pos (matchFromHere_obj _ post.toList (toolLit_startOfObj _) ?hbr)]

  case hbr =>
    show '\x7d' ∈ List.drop 6 ('"' :: 't' :: 'o' :: 'o' :: 'l' :: '"' :: ':' :: ' ' :: '"' ::
      (tool.toList ++ '"' :: ',' :: ' ' :: '"' :: 'p' :: 'a' :: 'r' :: 'a' :: 'm' ::
        'e' :: 't' :: 'e' :: 'r' :: 's' :: '"' :: ':' :: ' ' :: '\x7b' ::
        ((paramsJson params).toList ++ ['\x7d', '\x7d'])))
    simp [List.mem_append]
  have hfr : '\x7b' :: (('"' :: 't' :: 'o' :: 'o' :: 'l' :: '"' :: ':' :: ' ' :: '"' ::
        (tool.toList ++ '"' :: ',' :: ' ' :: '"' :: 'p' :: 'a' :: 'r' :: 'a' :: 'm' ::
          'e' :: 't' :: 'e' :: 'r' :: 's' :: '"' :: ':' :: ' ' :: '\x7b' ::
          ((paramsJson params).toList ++ ['\x7d', '\x7d']))) ++ post.toList) =
      (('\x7b' :: '"' :: 't' :: 'o' :: 'o' :: 'l' :: '"' :: ':' :: ' ' :: '"' ::
        (tool.toList ++ '"' :: ',' :: ' ' :: '"' :: 'p' :: 'a' :: 'r' :: 'a' :: 'm' ::
          'e' :: 't' :: 'e' :: 'r' :: 's' :: '"' :: ':' :: ' ' :: '\x7b' ::
          ((paramsJson params).toList ++ ['\x7d']))) ++ ['\x7d']) ++ post.toList := by
    simp
  rw [hfr, takeToLastClose_obj _ post.toList hpost]
  have hback : ('\x7b' :: '"' :: 't' :: 'o' :: 'o' :: 'l' :: '"' :: ':' :: ' ' :: '"' ::
        (tool.toList ++ '"' :: ',' :: ' ' :: '"' :: 'p' :: 'a' :: 'r' :: 'a' :: 'm' ::
          'e' :: 't' :: 'e' :: 'r' :: 's' :: '"' :: ':' :: ' ' :: '\x7b' ::
          ((paramsJson params).toList ++ ['\x7d']))) ++ ['\x7d'] =
      (toolCallJson tool params).toList := by
    rw [toolCallJson_toList]
    simp
  rw [hback]
  simp only [jsonLoads_toolCallJson tool params htool' hparams', List.find?,
    beq_self_eq_true, show (("tool" : String) == "parameters") = false from by decide]
  rw [if_neg htne]

/-- C2 counterexample: a well-formed object followed by prose containing
a stray `\x7d` (an emoticon) makes the greedy match span the prose, the
JSON parse fail, and the extractor return nothing — while the very same
object without that prose is extracted; the extractor is not tolerant of
arbitrary trailing non-JSON content. -/
theorem extractor_brace_in_prose_cex :
    parse_tool_call "\x7b\"tool\": \"t\", \"parameters\": \x7b\x7d\x7d :-\x7d" =
      Option.none ∧
    parse_tool_call "\x7b\"tool\": \"t\", \"parameters\": \x7b\x7d\x7d" =
      some ("t", JVal.obj []) :=
  ⟨rfl, rfl⟩

theorem extractor_extracts_embedded_call_witness :
    ("get_weather" : String) ≠ "" ∧ plainChars "get_weather" ∧
    '\x7b' ∉ ("Sure! " : String).toList ∧ '\x7d' ∉ (" done." : String).toList ∧
    parse_tool_call
        ("Sure! " ++ toolCallJson "get_weather" [("location", "Boston")] ++ " done.") =
      some ("get_weather", JVal.obj (paramsJVal [("location", "Boston")])) :=
  ⟨by decide, by unfold plainChars; decide, by decide, by decide,
    extractor_extracts_embedded_call "get_weather" [("location", "Boston")] "Sure! " " done."
      (by decide) (by unfold plainChars; decide) (by unfold plainChars; decide)
      (by decide) (by decide)⟩
